import Mathlib

/-!
Shallow embedding of the event-sourced bank-account runtime of th1enq/es-demo.

Conventions of the embedding:
* Go methods that mutate a receiver become pure functions returning the new
  value; fallible Go functions return `Except GoErr`.
* `uint64` values are modelled as `Nat`; the one place where Go wrap-around
  subtraction matters (`esEvent.GetVersion() - 1` in the projection) is
  modelled with an explicit `% 2^64`.
* `float64` read-model amounts are modelled as `Rat` (the amounts handled are
  integral minor/major currency units; no claim depends on rounding).
* `context.Context`, loggers and timestamps (`time.Now()`) are dropped: no
  claim observes them.
* Third-party `go-money` is modelled from its documented behaviour:
  `Add`/`Subtract` fail when the two currencies differ.
-/

/-- Error values surfaced by the Go code (internal/errors, pkg/es, go-money,
pgx, mongo-driver and PostgreSQL itself), collapsed to one closed type. -/
inductive GoErr : Type
  /-- internal/errors.ErrUnknownEventType -/
  | unknownEventType
  /-- internal/errors.ErrInvalidBalanceAmount -/
  | invalidBalanceAmount
  /-- internal/errors.ErrNotEnoughBalance -/
  | notEnoughBalance
  /-- internal/errors.ErrBankAccountNotFound -/
  | bankAccountNotFound
  /-- internal/errors.ErrBankAccountAlreadyExists -/
  | bankAccountAlreadyExists
  /-- go-money: "currencies don't match" returned by Add/Subtract -/
  | currencyMismatch
  /-- pkg/es.ErrInvalidEventVersion -/
  | invalidEventVersion
  /-- pgx.ErrNoRows / mongo.ErrNoDocuments -/
  | noRows
  /-- PostgreSQL unique-constraint violation / Mongo duplicate-key error -/
  | duplicateKey
  /-- PostgreSQL 42P10: no unique or exclusion constraint matching the
  ON CONFLICT specification -/
  | noMatchingConflictConstraint
  /-- serializer / JSON decode failure -/
  | serializationError
  /-- kafka publish failure (any bus error) -/
  | busError
  deriving DecidableEq, Repr

/-! ## go-money (github.com/Rhymond/go-money), modelled -/

/-- `money.Money`: an amount in minor units together with a currency code. -/
structure Money : Type where
  amount : Int
  currency : String
  deriving DecidableEq, Repr

namespace Money

/-- `money.New(amount, code)` -/
def new (amount : Int) (code : String) : Money := ⟨amount, code⟩

/-- `Money.Add`: errors when the currencies differ. -/
def add (m om : Money) : Except GoErr Money :=
  if m.currency = om.currency then .ok ⟨m.amount + om.amount, m.currency⟩
  else .error .currencyMismatch

/-- `Money.Subtract`: errors when the currencies differ. -/
def subtract (m om : Money) : Except GoErr Money :=
  if m.currency = om.currency then .ok ⟨m.amount - om.amount, m.currency⟩
  else .error .currencyMismatch

/-- `Money.IsNegative` -/
def isNegative (m : Money) : Bool := m.amount < 0

/-- Decimal places of a currency (go-money currency table): VND has 0,
USD (and the table default) has 2. -/
def currencyFraction (code : String) : Nat :=
  if code = "VND" then 0 else 2

/-- `Money.AsMajorUnits`: amount divided by 10^fraction, as a float
(modelled as the exact rational `amount / 10^fraction`). -/
def asMajorUnits (m : Money) : Rat :=
  mkRat m.amount (10 ^ currencyFraction m.currency)

end Money

/-- `money.VND` / `money.USD` currency-code constants. -/
def moneyVND : String := "VND"

def moneyUSD : String := "USD"

/-! ## Domain events (internal/events)

The payloads form a closed tagged union; the serialization registry
(internal/domain eventSerializer) keys them by the `*_V1` strings. -/

/-- The three domain event payloads of the BankAccount aggregate. -/
inductive DomainEvent : Type
  /-- events.BankAccountCreatedEventV1 -/
  | created (email firstName lastName : String) (balance : Money)
      (passwordHash : String)
  /-- events.BalanceDepositedEventV1 -/
  | deposited (amount : Int) (paymentID : String)
  /-- events.BalanceWithdrawedEventV1 -/
  | withdrawed (amount : Int) (paymentID : String)
  deriving DecidableEq, Repr

/-- The `event_type` string the serialization registry writes for a payload
(`BANK_ACCOUNT_CREATED_V1`, `BALANCE_DEPOSITED_V1`, `BALANCE_WITHDRAWED_V1`). -/
def DomainEvent.eventType : DomainEvent → String
  | .created .. => "BANK_ACCOUNT_CREATED_V1"
  | .deposited .. => "BALANCE_DEPOSITED_V1"
  | .withdrawed .. => "BALANCE_WITHDRAWED_V1"

/-! ## BankAccount domain state (internal/domain/bank_account.go) -/

/-- `domain.BankAccount` (runtime state). `CreatedAt`/`UpdatedAt` timestamps
are dropped; no claim observes them. -/
structure BankAccount : Type where
  aggregateID : String
  email : String
  firstName : String
  lastName : String
  balance : Money
  status : String
  passwordHash : String
  role : String
  isActive : Bool
  deriving DecidableEq, Repr

/-- bcrypt.GenerateFromPassword, modelled as an abstract injective tagging of
the password; no claim depends on the hash value itself. -/
def bcryptHash (password : String) : String := "bcrypt$" ++ password

/-- `domain.NewBankAccount(id)` -/
def NewBankAccount (id : String) : BankAccount :=
  { aggregateID := id
    email := ""
    firstName := ""
    lastName := ""
    balance := Money.new 0 "USD"
    status := ""
    passwordHash := ""
    role := "user"
    isActive := true }

/-- `BankAccount.Deposit(amount)`: adds `money.New(amount, money.USD)` to the
balance (note: USD, even though created accounts hold VND). -/
def BankAccount.deposit (b : BankAccount) (amount : Int) :
    Except GoErr BankAccount := do
  let result ← b.balance.add (Money.new amount moneyUSD)
  return { b with balance := result }

/-- `BankAccount.Withdraw(amount)`: subtracts `money.New(amount, money.USD)`
from the balance. -/
def BankAccount.withdraw (b : BankAccount) (amount : Int) :
    Except GoErr BankAccount := do
  let result ← b.balance.subtract (Money.new amount moneyUSD)
  return { b with balance := result }

/-! ## Aggregate base (pkg/es base type)

Modelled from the spec: the `es.AggregateBase` implementation file is not
among the sources (only its call sites are). Per the spec's aggregate-base
contract: `apply(event)` updates state through the domain `when`, pushes the
event to `changes` and increments `version`; `raise(event)` updates state and
increments `version` without recording a change; the aggregate starts at
version 0 with empty changes. -/
structure AggregateBase : Type where
  id : String
  type : String
  version : Nat
  changes : List DomainEvent
  deriving DecidableEq, Repr

/-- Modelled from the spec: `es.NewAggregateBase` yields version 0 and no
uncommitted changes (the domain `when` is attached structurally below). -/
def NewAggregateBase : AggregateBase :=
  { id := "", type := "", version := 0, changes := [] }

/-! ## BankAccount aggregate (internal/domain/aggregate.go) -/

/-- `domain.BankAccountAggregate`: the aggregate base plus the domain state. -/
structure BankAccountAggregate : Type where
  base : AggregateBase
  bankAccount : BankAccount
  deriving DecidableEq, Repr

/-- `domain.BankAccountAggregateType` -/
def BankAccountAggregateType : String := "BankAccount"

/-- `domain.NewBankAccountAggregate(id)`: returns nil (`none`) exactly for the
empty id, otherwise a fresh aggregate of type BankAccount at version 0. -/
def NewBankAccountAggregate (id : String) : Option BankAccountAggregate :=
  if id = "" then none
  else some
    { base := { NewAggregateBase with type := BankAccountAggregateType, id := id }
      bankAccount := NewBankAccount id }

/-- `BankAccountAggregate.When`: the domain state-transition function. -/
def BankAccountAggregate.when (a : BankAccountAggregate) (event : DomainEvent) :
    Except GoErr BankAccountAggregate :=
  match event with
  | .created email firstName lastName balance passwordHash =>
      .ok { a with bankAccount :=
        { a.bankAccount with
            email := email, balance := balance, firstName := firstName,
            lastName := lastName, passwordHash := passwordHash } }
  | .deposited amount _ => do
      let b ← a.bankAccount.deposit amount
      return { a with bankAccount := b }
  | .withdrawed amount _ => do
      let b ← a.bankAccount.withdraw amount
      return { a with bankAccount := b }

/-- Modelled from the spec: `AggregateBase.Apply` — run `when`, then record
the event as an uncommitted change and increment the version. -/
def BankAccountAggregate.apply (a : BankAccountAggregate)
    (event : DomainEvent) : Except GoErr BankAccountAggregate := do
  let a' ← a.when event
  return { a' with base :=
    { a'.base with changes := a'.base.changes ++ [event],
                   version := a'.base.version + 1 } }

/-- Modelled from the spec: `AggregateBase.RaiseEvent` — run `when` and
increment the version without recording a change (rehydration). -/
def BankAccountAggregate.raiseEvent (a : BankAccountAggregate)
    (event : DomainEvent) : Except GoErr BankAccountAggregate := do
  let a' ← a.when event
  return { a' with base := { a'.base with version := a'.base.version + 1 } }

/-- `BankAccountAggregate.CreateBankAccount`: validates the initial amount,
hashes the password and applies a Created event carrying a VND balance. -/
def BankAccountAggregate.createBankAccount (a : BankAccountAggregate)
    (email firstName lastName : String) (amount : Int) (password : String) :
    Except GoErr BankAccountAggregate :=
  if amount < 0 then .error .invalidBalanceAmount
  else
    a.apply (.created email firstName lastName
      (Money.new amount moneyVND) (bcryptHash password))

/-- `BankAccountAggregate.DepositBalance`: validates the amount and applies a
Deposited event. -/
def BankAccountAggregate.depositBalance (a : BankAccountAggregate)
    (amount : Int) (paymentID : String) : Except GoErr BankAccountAggregate :=
  if amount ≤ 0 then .error .invalidBalanceAmount
  else a.apply (.deposited amount paymentID)

/-- `BankAccountAggregate.WithdrawBalance`: validates the amount, checks the
prospective balance in VND, then applies a Withdrawed event. -/
def BankAccountAggregate.withdrawBalance (a : BankAccountAggregate)
    (amount : Int) (paymentID : String) : Except GoErr BankAccountAggregate :=
  if amount ≤ 0 then .error .invalidBalanceAmount
  else
    match (Money.new a.bankAccount.balance.amount moneyVND).subtract
            (Money.new amount moneyVND) with
    | .error e => .error e
    | .ok balance =>
        if balance.isNegative then .error .notEnoughBalance
        else a.apply (.withdrawed amount paymentID)

/-- The state a Go caller observes after invoking a mutating aggregate method:
on error the aggregate is left as it was (the Go methods mutate the receiver
only after all checks pass inside `when`). -/
def stepOr (a : BankAccountAggregate)
    (r : Except GoErr BankAccountAggregate) : BankAccountAggregate :=
  match r with
  | .ok a' => a'
  | .error _ => a

/-! ## Persisted event records (pkg/es Event rows)

The `es.Event` struct file is not under the sources; its fields are read off
the SQL queries and row scans in pg_eventstore.go (event_id, aggregate_id,
aggregate_type, event_type, data, version, timestamp, metadata).  The `data`
JSON payload is modelled as the decoded `DomainEvent` (the registry's
Marshal/Unmarshal are inverse on these payloads); `metadata` is dropped (no
claim observes it). -/
structure EsEvent : Type where
  eventID : Nat
  aggregateID : String
  aggregateType : String
  eventType : String
  data : DomainEvent
  version : Nat
  timestamp : Nat
  deriving DecidableEq, Repr

/-- The registry's known tags (internal/domain eventSerializer switch). -/
def knownEventType (t : String) : Bool :=
  t = "BANK_ACCOUNT_CREATED_V1" || t = "BALANCE_DEPOSITED_V1" ||
    t = "BALANCE_WITHDRAWED_V1"

/-- `eventSerializer.DeserializeEvent`: registry miss fails
(domain.ErrInvalidEvent); a payload whose JSON does not carry the tagged
type's fields fails to decode into a usable value. -/
def deserializeEvent (e : EsEvent) : Except GoErr DomainEvent :=
  if knownEventType e.eventType then
    if e.eventType = e.data.eventType then .ok e.data
    else .error .serializationError
  else .error .unknownEventType

/-- `eventSerializer.SerializeEvent` over a whole uncommitted batch.
Modelled from the spec for the missing `es.NewEvent`: each change is stamped
with the aggregate's id and type and with the aggregate's post-apply version
for that change (the i-th change of a batch of n ending at version V gets
version V - n + i + 1); `event_id` is store-assigned and left 0 here. -/
def serializeChanges (a : BankAccountAggregate) : List EsEvent :=
  ((List.range a.base.changes.length).zip a.base.changes).map (fun p =>
    { eventID := 0
      aggregateID := a.base.id
      aggregateType := a.base.type
      eventType := p.2.eventType
      data := p.2
      version := a.base.version - a.base.changes.length + p.1 + 1
      timestamp := 0 })

/-! ## Snapshot rows (migrations/001_event_store.sql, pkg/es queries) -/

/-- The serialized snapshot state.  Modelled from the spec for the missing
`es.NewSnapshotFromAggregate`: the aggregate's state marshalled to JSON.
`BankAccount.PasswordHash` carries the tag `json:"-"`, so the hash is
excluded from the marshalled state. -/
structure SnapState : Type where
  bankAccount : BankAccount
  version : Nat
  deriving DecidableEq, Repr

/-- What JSON-marshalling a `BankAccount` drops: the `json:"-"` password hash. -/
def erasePw (b : BankAccount) : BankAccount := { b with passwordHash := "" }

/-- A row of `microservices.snapshots`. -/
structure SnapRow : Type where
  aggregateID : String
  aggregateType : String
  state : SnapState
  version : Nat
  deriving DecidableEq, Repr

/-- Modelled from the spec: `es.NewSnapshotFromAggregate` marshals the
aggregate at its current version. -/
def NewSnapshotFromAggregate (a : BankAccountAggregate) : SnapRow :=
  { aggregateID := a.base.id
    aggregateType := a.base.type
    state := { bankAccount := erasePw a.bankAccount, version := a.base.version }
    version := a.base.version }

/-- `serializer.Unmarshal(snapshot.State, aggregate)`: the freshly constructed
aggregate's fields are overwritten from the snapshot JSON. -/
def loadSnapshotIntoAggregate (a : BankAccountAggregate) (s : SnapState) :
    BankAccountAggregate :=
  { base := { a.base with version := s.version }, bankAccount := s.bankAccount }

/-- Column sets with a unique index on `microservices.snapshots` as created by
migrations/001_event_store.sql: only the primary key `aggregate_id`
(the two extra indexes on aggregate_type and timestamp are non-unique). -/
def snapshotsUniqueConstraints : List (List String) := [["aggregate_id"]]

/-- The conflict target written in `saveSnapshotQuery`:
`ON CONFLICT (aggregate_id, version)`. -/
def saveSnapshotConflictTarget : List String := ["aggregate_id", "version"]

/-- Executing `saveSnapshotQuery` against the migrated schema.  PostgreSQL
infers the arbiter index for `ON CONFLICT (cols) DO UPDATE` from the table's
unique constraints; when no unique index covers exactly the named columns the
statement is rejected (SQLSTATE 42P10) before any row is touched. -/
def execSaveSnapshot (tbl : List SnapRow) (row : SnapRow) :
    Except GoErr (List SnapRow) :=
  if saveSnapshotConflictTarget ∈ snapshotsUniqueConstraints then
    if tbl.any (fun r => r.aggregateID = row.aggregateID ∧ r.version = row.version)
    then .ok (tbl.map (fun r =>
      if r.aggregateID = row.aggregateID ∧ r.version = row.version then row else r))
    else .ok (tbl ++ [row])
  else .error .noMatchingConflictConstraint

/-- A table state that respects the DDL's unique constraints: the primary key
makes `aggregate_id` unique across rows. -/
def snapshotsTableWf (tbl : List SnapRow) : Prop :=
  ∀ r1 ∈ tbl, ∀ r2 ∈ tbl, r1.aggregateID = r2.aggregateID → r1 = r2

/-! ## The PostgreSQL event store (pkg/es/pg_eventstore.go) -/

/-- The persistent state the store manipulates. -/
structure PgState : Type where
  events : List EsEvent
  snapshots : List SnapRow
  deriving DecidableEq, Repr

/-- Insertion sort by version: the `ORDER BY version ASC` of the SELECTs. -/
def insertByVersion (e : EsEvent) : List EsEvent → List EsEvent
  | [] => [e]
  | x :: xs =>
      if e.version ≤ x.version then e :: x :: xs else x :: insertByVersion e xs

/-- `ORDER BY version ASC` applied to a bag of rows. -/
def sortByVersion (l : List EsEvent) : List EsEvent :=
  l.foldr insertByVersion []

/-- The rows with `aggregate_id = $1` (the WHERE clause all the event SELECTs
share; a conjunctive WHERE is the composition of the row filters). -/
def eventsFor (st : PgState) (aggregateID : String) : List EsEvent :=
  st.events.filter (fun e => e.aggregateID = aggregateID)

/-- `getEventsQuery`: all events of an aggregate, ascending by version. -/
def getEvents (st : PgState) (aggregateID : String) : List EsEvent :=
  sortByVersion (eventsFor st aggregateID)

/-- `getEventsByVersionQuery`: events with `version > $2`, ascending. -/
def getEventsSince (st : PgState) (aggregateID : String) (v : Nat) :
    List EsEvent :=
  sortByVersion ((eventsFor st aggregateID).filter (fun e => v < e.version))

/-- `getEventsByVersionRangeQuery`: `version BETWEEN $2 AND $3`, ascending. -/
def getEventsRange (st : PgState) (aggregateID : String) (lo hi : Nat) :
    List EsEvent :=
  sortByVersion ((eventsFor st aggregateID).filter
    (fun e => lo ≤ e.version ∧ e.version ≤ hi))

/-- Modelled from the spec ("else load all events up to `target_version`")
for the missing `loadEventsIntoVersion` helper: events with version ≤ v. -/
def getEventsUpTo (st : PgState) (aggregateID : String) (v : Nat) :
    List EsEvent :=
  sortByVersion ((eventsFor st aggregateID).filter (fun e => e.version ≤ v))

/-- `getSnapshotQuery`: latest snapshot of an aggregate
(`ORDER BY version DESC LIMIT 1`), or no rows. -/
def getSnapshot (st : PgState) (aggregateID : String) : Option SnapRow :=
  (st.snapshots.filter (fun r => r.aggregateID = aggregateID)).foldl
    (fun acc r => match acc with
      | none => some r
      | some m => if m.version < r.version then some r else some m) none

/-- `getSnapshotByVersionQuery`: the snapshot at exactly this version. -/
def getSnapshotByVersion (st : PgState) (aggregateID : String) (v : Nat) :
    Option SnapRow :=
  (st.snapshots.filter
    (fun r => r.aggregateID = aggregateID ∧ r.version = v)).head?

/-- Replay a row list into an aggregate: deserialize each row and raise it
(`rows.Next` loop of the load helpers); a deserialization or `when` error
aborts the load. -/
def replayList (a : BankAccountAggregate) (evs : List EsEvent) :
    Except GoErr BankAccountAggregate :=
  evs.foldlM (fun acc e => do
    let d ← deserializeEvent e
    acc.raiseEvent d) a

/-- `pgEventStore.Load`: latest snapshot if any, then the events past it;
otherwise a full replay. -/
def Load (st : PgState) (a : BankAccountAggregate) :
    Except GoErr BankAccountAggregate :=
  match getSnapshot st a.base.id with
  | some snap =>
      let a' := loadSnapshotIntoAggregate a snap.state
      replayList a' (getEventsSince st a'.base.id a'.base.version)
  | none => replayList a (getEvents st a.base.id)

/-- `pgEventStore.LoadByVersion`: snapshot at `version / F * F` if present,
then the events in `(snapshot.Version, version]`; otherwise all events up to
`version`. -/
def LoadByVersion (st : PgState) (a : BankAccountAggregate) (version F : Nat) :
    Except GoErr BankAccountAggregate :=
  match getSnapshotByVersion st a.base.id (version / F * F) with
  | some snap =>
      let a' := loadSnapshotIntoAggregate a snap.state
      if snap.version < version then
        replayList a' (getEventsRange st a'.base.id (snap.version + 1) version)
      else .ok a'
  | none => replayList a (getEventsUpTo st a.base.id version)

/-- `saveEventsTx` insertions: each row insert fails on a unique-violation of
`(aggregate_id, version)` (the events table's UNIQUE constraint), which
aborts the batch. -/
def insertEventsTx (log : List EsEvent) (evs : List EsEvent) :
    Except GoErr (List EsEvent) :=
  evs.foldlM (fun l e =>
    if l.any (fun x => x.aggregateID = e.aggregateID ∧ x.version = e.version)
    then .error .duplicateKey
    else .ok (l ++ [e])) log

/-- The observable steps a `Save` run takes inside its transaction. -/
inductive SaveStep : Type
  | append
  | snapshotWrite
  | publish
  | commit
  | rollback
  deriving DecidableEq, Repr

deriving instance DecidableEq for Except

/-- Result of a `Save` run: the store state after the transaction finished,
the aggregate as the caller sees it afterwards, the step trace, and the
returned error if any. -/
structure SaveOut : Type where
  st : PgState
  agg : BankAccountAggregate
  trace : List SaveStep
  res : Except GoErr Unit
  deriving DecidableEq, Repr

/-- `pgEventStore.Save` (pkg/es/aggregate_store.go): no-op on an empty
changes list; otherwise, inside one transaction: serialize the changes,
append them (`saveEventsTx`), write a snapshot when
`aggregate.GetVersion() % SnapshotFrequency == 0`, publish to the bus
(`processEvents`), then commit; any error rolls the transaction back.
`publishOk` is the bus oracle: whether `eventBus.ProcessEvents` succeeds on
the batch.  The aggregate is returned unchanged: `Save` never clears the
changes list (`ToSnapshot`, modelled from the spec, only materializes state
bytes). -/
def Save (st : PgState) (a : BankAccountAggregate) (F : Nat)
    (publishOk : List EsEvent → Bool) : SaveOut :=
  if a.base.changes.isEmpty then ⟨st, a, [], .ok ()⟩
  else
    let events := serializeChanges a
    match insertEventsTx st.events events with
    | .error e => ⟨st, a, [.append, .rollback], .error e⟩
    | .ok newLog =>
      if a.base.version % F == 0 then
        match execSaveSnapshot st.snapshots (NewSnapshotFromAggregate a) with
        | .error e => ⟨st, a, [.append, .snapshotWrite, .rollback], .error e⟩
        | .ok newSnaps =>
            if publishOk events then
              ⟨⟨newLog, newSnaps⟩, a,
                [.append, .snapshotWrite, .publish, .commit], .ok ()⟩
            else
              ⟨st, a, [.append, .snapshotWrite, .publish, .rollback],
                .error .busError⟩
      else
        if publishOk events then
          ⟨⟨newLog, st.snapshots⟩, a, [.append, .publish, .commit], .ok ()⟩
        else ⟨st, a, [.append, .publish, .rollback], .error .busError⟩

/-! ## Kafka event bus (pkg/es/kafka_eventbus.go, pkg/kafka/writer.go) -/

/-- `es.GetTopicName`: `"<topic pfx>_<aggregate type>"`. -/
def GetTopicName (topicPfx aggregateType : String) : String :=
  topicPfx ++ "_" ++ aggregateType

/-- The fields of `kafka.Message` that `ProcessEvents` populates.  A field the
composite literal leaves out keeps its Go zero value; in particular `Key`
stays empty. -/
structure KafkaMessage : Type where
  topic : String
  key : String
  value : List EsEvent
  deriving DecidableEq, Repr

/-- `kafkaEventsBus.ProcessEvents`: marshal the batch and publish one message
to the topic derived from the first event's aggregate type.  `events[0]` on an
empty batch panics in Go, modelled as `none`.  Note no `Key` is set. -/
def processEvents (topicPfx : String) (events : List EsEvent) :
    Option KafkaMessage :=
  match events with
  | [] => none
  | e :: _ =>
      some { topic := GetTopicName topicPfx e.aggregateType
             key := ""
             value := events }

/-- The partitioning strategies of segmentio/kafka-go writers. -/
inductive Balancer : Type
  | leastBytes
  | hash
  | roundRobin
  deriving DecidableEq, Repr

/-- The writer fields `kafka.NewWriter` (pkg/kafka/writer.go) configures that
bear on partitioning and delivery. -/
structure WriterCfg : Type where
  balancer : Balancer
  async : Bool
  deriving DecidableEq, Repr

/-- `kafka.NewWriter(brokers)`: `Balancer: &kafka.LeastBytes{}`, synchronous. -/
def NewWriter : WriterCfg := { balancer := .leastBytes, async := false }

/-! ## Mongo read model (internal/repository/mongo_repository.go) -/

/-- The read-model `balance` sub-document; `amount` is a Go float64,
modelled as `Rat`. -/
structure MBalance : Type where
  amount : Rat
  currency : String
  deriving DecidableEq, Repr

/-- `domain.BankAccountMongoProjection` (the Mongo `_id` and the timestamps
are dropped; no claim observes them). -/
structure BankAccountMongoProjection : Type where
  aggregateID : String
  version : Nat
  email : String
  firstName : String
  lastName : String
  balance : MBalance
  passwordHash : String
  status : String
  deriving DecidableEq, Repr

/-- The `bank_accounts` collection: a list of documents with a unique index
on `aggregate_id` (created in internal/app Initialize). -/
abbrev MongoState : Type := List BankAccountMongoProjection

/-- `FindOne` with filter `{aggregate_id: id}`. -/
def mongoFindOne (st : MongoState) (aggregateID : String) :
    Option BankAccountMongoProjection :=
  st.find? (fun r => r.aggregateID = aggregateID)

/-- `InsertOne`: the unique index on `aggregate_id` makes a second document
for the same aggregate a duplicate-key error. -/
def mongoInsert (st : MongoState) (p : BankAccountMongoProjection) :
    Except GoErr MongoState :=
  if st.any (fun r => r.aggregateID = p.aggregateID) then .error .duplicateKey
  else .ok (st ++ [p])

/-- `DeleteOne` with filter `{aggregate_id: id}` (no error when absent). -/
def mongoDelete (st : MongoState) (aggregateID : String) : MongoState :=
  st.filter (fun r => ¬ r.aggregateID = aggregateID)

/-- `FindOneAndUpdate` (`$set`, upsert=false) on an existing document. -/
def mongoReplace (st : MongoState) (p : BankAccountMongoProjection) :
    MongoState :=
  st.map (fun r => if r.aggregateID = p.aggregateID then p else r)

/-- `bankAccountMongoRepository.UpdateConcurrently`: inside a session
transaction, find the document, require its version to equal
`expectedVersion` (else `es.ErrInvalidEventVersion`), apply the callback and
write the result back. -/
def updateConcurrently (st : MongoState) (aggregateID : String)
    (updateCb : BankAccountMongoProjection → BankAccountMongoProjection)
    (expectedVersion : Nat) : Except GoErr MongoState :=
  match mongoFindOne st aggregateID with
  | none => .error .noRows
  | some found =>
      if found.version ≠ expectedVersion then .error .invalidEventVersion
      else .ok (mongoReplace st (updateCb found))

/-! ## Mappers (internal/mappers/bank_account.go) -/

/-- `mappers.BankAccountToMongoProjection`: note it copies neither the
password hash (left zero) nor anything else beyond the listed fields. -/
def BankAccountToMongoProjection (a : BankAccountAggregate) :
    BankAccountMongoProjection :=
  { aggregateID := a.bankAccount.aggregateID
    version := a.base.version
    email := a.bankAccount.email
    firstName := a.bankAccount.firstName
    lastName := a.bankAccount.lastName
    balance := { amount := a.bankAccount.balance.asMajorUnits
                 currency := a.bankAccount.balance.currency }
    passwordHash := ""
    status := a.bankAccount.status }

/-! ## Mongo projection consumer (internal/projection, mongo_subcription) -/

/-- Go `uint64` subtraction of 1: wraps at zero. -/
def u64pred (v : Nat) : Nat := (v + (2 ^ 64 - 1)) % 2 ^ 64

/-- `bankAccountMongoProjection.When`: dispatch on the deserialized event.
Created requires version 1 then inserts the projected row (`Status` is not
set by the composite literal and stays zero); Deposited/Withdrawed go through
the version-gated `UpdateConcurrently` with expected version
`esEvent.GetVersion() - 1`, adding/subtracting the event amount
(`money.New(amount, money.VND).Amount()` = amount) to the float balance. -/
def projectionWhen (st : MongoState) (e : EsEvent) : Except GoErr MongoState :=
  match deserializeEvent e with
  | .error err => .error err
  | .ok (.created email firstName lastName balance passwordHash) =>
      if e.version ≠ 1 then .error .invalidEventVersion
      else mongoInsert st
        { aggregateID := e.aggregateID
          version := e.version
          email := email
          firstName := firstName
          lastName := lastName
          balance := { amount := balance.asMajorUnits
                       currency := balance.currency }
          passwordHash := passwordHash
          status := "" }
  | .ok (.deposited amount _) =>
      updateConcurrently st e.aggregateID
        (fun p =>
          { p with
              balance := { p.balance with
                amount := p.balance.amount + ((Money.new amount moneyVND).amount : Rat) }
              version := e.version })
        (u64pred e.version)
  | .ok (.withdrawed amount _) =>
      updateConcurrently st e.aggregateID
        (fun p =>
          { p with
              balance := { p.balance with
                amount := p.balance.amount - ((Money.new amount moneyVND).amount : Rat) }
              version := e.version })
        (u64pred e.version)

/-- Outcome of `MongoSubscription.recreateProjection`. -/
inductive RecreateOut : Type
  /-- empty aggregate_id: `NewBankAccountAggregate` returned nil and `Load`
  dereferences it -/
  | panicked
  /-- the row was already deleted, then loading or inserting failed -/
  | failed (st : MongoState) (e : GoErr)
  | ok (st : MongoState)
  deriving DecidableEq, Repr

/-- `MongoSubscription.recreateProjection`: delete the row, load the
aggregate fresh from the event store, insert the full projected state.
The delete is not covered by any transaction spanning the three steps. -/
def recreateProjection (pg : PgState) (st : MongoState) (e : EsEvent) :
    RecreateOut :=
  let st1 := mongoDelete st e.aggregateID
  match NewBankAccountAggregate e.aggregateID with
  | none => .panicked
  | some a =>
      match Load pg a with
      | .error err => .failed st1 err
      | .ok agg =>
          match mongoInsert st1 (BankAccountToMongoProjection agg) with
          | .error err => .failed st1 err
          | .ok st2 => .ok st2

/-- What `MongoSubscription.handle` reports for one event. -/
inductive HandleRes : Type
  /-- `When` succeeded -/
  | ok
  /-- `When` failed, the rebuild succeeded, the message offset was committed
  (`commitErrMessage`) and the wrapped `When` error was returned -/
  | committedErr (e : GoErr)
  /-- `When` failed and the rebuild failed too; nothing was committed -/
  | uncommittedErr (e : GoErr)
  /-- nil-aggregate dereference inside the rebuild -/
  | nilPanic
  deriving DecidableEq, Repr

/-- `MongoSubscription.handle`: apply the projection; on error run
`recreateProjection` and commit the message if the rebuild worked. -/
def subscriptionHandle (pg : PgState) (st : MongoState) (e : EsEvent) :
    MongoState × HandleRes :=
  match projectionWhen st e with
  | .ok st' => (st', .ok)
  | .error werr =>
      match recreateProjection pg st e with
      | .panicked => (mongoDelete st e.aggregateID, .nilPanic)
      | .failed st1 rerr => (st1, .uncommittedErr rerr)
      | .ok st2 => (st2, .committedErr werr)

/-! ## Query and command handlers (internal/query, internal/command) -/

/-- Outcome of a handler run (the nil-aggregate dereference is a Go runtime
panic, not an error return). -/
inductive QueryRes (α : Type) : Type
  | ok (a : α)
  | err (e : GoErr)
  | nilPanic
  deriving DecidableEq, Repr

/-- `getBankAccountByVersionQuery.Handle` (GetByVersion): construct the
aggregate, `LoadByVersion`, then `NotFound` when the loaded version is 0 or
below the requested one; otherwise map to the projection shape. -/
def getBankAccountByVersionHandle (pg : PgState) (F : Nat)
    (aggregateID : String) (version : Nat) :
    QueryRes BankAccountMongoProjection :=
  match NewBankAccountAggregate aggregateID with
  | none => .nilPanic
  | some a =>
      match LoadByVersion pg a version F with
      | .error e => .err e
      | .ok agg =>
          if agg.base.version = 0 then .err .bankAccountNotFound
          else if agg.base.version < version then .err .bankAccountNotFound
          else .ok (BankAccountToMongoProjection agg)

/-- `getBankAccountByIDQuery.Handle`: read-model first unless
`from_event_store`; on a read-model miss (ErrNoDocuments) fall back to the
aggregate store (the best-effort `Upsert` write-back touches only the read
model and is dropped here: no claim observes it). -/
def getBankAccountByIDHandle (pg : PgState) (mongo : MongoState)
    (aggregateID : String) (fromEventStore : Bool) :
    QueryRes BankAccountMongoProjection :=
  if fromEventStore then
    match NewBankAccountAggregate aggregateID with
    | none => .nilPanic
    | some a =>
        match Load pg a with
        | .error e => .err e
        | .ok agg =>
            if agg.base.version = 0 then .err .bankAccountNotFound
            else .ok (BankAccountToMongoProjection agg)
  else
    match mongoFindOne mongo aggregateID with
    | some p => .ok p
    | none =>
        match NewBankAccountAggregate aggregateID with
        | none => .nilPanic
        | some a =>
            match Load pg a with
            | .error e => .err e
            | .ok agg =>
                if agg.base.version = 0 then .err .bankAccountNotFound
                else .ok (BankAccountToMongoProjection agg)

/-- Outcome of a command handler run. -/
inductive CmdRes : Type
  | ok (pg : PgState)
  | err (e : GoErr) (pg : PgState)
  | nilPanic
  deriving DecidableEq, Repr

/-- `depositeBalanceCmdHandler.Handle`: construct the aggregate (no nil
check), `Load`, `DepositBalance`, `Save`. -/
def depositeBalanceHandle (pg : PgState) (F : Nat)
    (publishOk : List EsEvent → Bool) (aggregateID : String) (amount : Int)
    (paymentID : String) : CmdRes :=
  match NewBankAccountAggregate aggregateID with
  | none => .nilPanic
  | some a =>
      match Load pg a with
      | .error e => .err e pg
      | .ok agg =>
          match agg.depositBalance amount paymentID with
          | .error e => .err e pg
          | .ok agg' =>
              let out := Save pg agg' F publishOk
              match out.res with
              | .ok _ => .ok out.st
              | .error e => .err e out.st

/-! ## Reference semantics and proof apparatus -/

/-- Unwrap the optional aggregate where the surrounding code guarantees a
non-empty id (a Go caller would have crashed otherwise). -/
def orFresh (o : Option BankAccountAggregate) : BankAccountAggregate :=
  o.getD { base := NewAggregateBase, bankAccount := NewBankAccount "" }

/-- The spec's reference semantics for `GetByVersion`: the state obtained by
replaying events `1..v` from scratch — the first `v` rows of the aggregate's
dense, version-ordered history folded into a fresh aggregate. -/
def replayEventsOneTo (a0 : BankAccountAggregate) (rows : List EsEvent)
    (v : Nat) : Except GoErr BankAccountAggregate :=
  replayList a0 (rows.take v)

/-- Erase the snapshot-invisible password hash of an aggregate (the
`json:"-"` field); used to compare snapshot-loaded and replayed states. -/
def erasePwAgg (a : BankAccountAggregate) : BankAccountAggregate :=
  { a with bankAccount := erasePw a.bankAccount }

/-! ## Concrete fixtures used by witnesses and counterexamples -/

/-- The aggregate the runtime builds for id "A". -/
def aggA : BankAccountAggregate := orFresh (NewBankAccountAggregate "A")

/-- `aggA` after a successful Create with initial balance 1000 VND. -/
def aggA1 : BankAccountAggregate :=
  stepOr aggA (aggA.createBankAccount "test@email.com" "First" "Last" 1000
    "password123")

/-- An aggregate for id "B" carrying five applied Created events: version 5
(a snapshot-frequency boundary for F = 5) with five uncommitted changes. -/
def aggB5 : BankAccountAggregate :=
  (List.replicate 5
      (DomainEvent.created "b@email.com" "Bee" "Five" (Money.new 7 moneyVND) "h")).foldl
    (fun acc ev => stepOr acc (acc.apply ev))
    (orFresh (NewBankAccountAggregate "B"))

/-- A persisted Created row for aggregate "A" at version 1. -/
def rowCreatedA : EsEvent :=
  { eventID := 1
    aggregateID := "A"
    aggregateType := "BankAccount"
    eventType := "BANK_ACCOUNT_CREATED_V1"
    data := .created "test@email.com" "First" "Last" (Money.new 1000 moneyVND)
      "bcrypt$password123"
    version := 1
    timestamp := 0 }

/-- A persisted Deposited row for aggregate "A". -/
def rowDepositedA (v : Nat) : EsEvent :=
  { eventID := v
    aggregateID := "A"
    aggregateType := "BankAccount"
    eventType := "BALANCE_DEPOSITED_V1"
    data := .deposited 500 "p1"
    version := v
    timestamp := 0 }

/-- A one-event store: aggregate "A" has just the Created row. -/
def pgA : PgState := { events := [rowCreatedA], snapshots := [] }

/-- A read-model row for aggregate "A" at an arbitrary version. -/
def mongoRowA (v : Nat) : BankAccountMongoProjection :=
  { aggregateID := "A"
    version := v
    email := "test@email.com"
    firstName := "First"
    lastName := "Last"
    balance := { amount := 1000, currency := "VND" }
    passwordHash := "bcrypt$password123"
    status := "" }

/-- The aggregate `Load` rebuilds for "A" from the one-event store `pgA`. -/
def aggALoaded : BankAccountAggregate :=
  (Load pgA (orFresh (NewBankAccountAggregate "A"))).toOption.getD
    (orFresh (NewBankAccountAggregate "A"))

/-! # Theorems -/

/-- C3: the spec's scenario S1 (Create 1000 VND → Deposit 500 → Withdraw 200,
three events, final balance 1300) does not hold on the code: Create succeeds
and leaves the aggregate at version 1 with a 1000 VND balance, but the very
next Deposit — and likewise the Withdraw — fails with go-money's
currency-mismatch error, because `BankAccount.Deposit`/`Withdraw` operate in
USD on the VND balance the Created event installed.  No second or third event
is ever produced. -/
theorem c3_s1_scenario_fails_at_deposit :
    NewBankAccountAggregate "A" = some aggA ∧
    aggA.createBankAccount "test@email.com" "First" "Last" 1000 "password123"
      = .ok aggA1 ∧
    aggA1.base.version = 1 ∧
    aggA1.base.changes = [DomainEvent.created "test@email.com" "First" "Last"
      (Money.new 1000 moneyVND) (bcryptHash "password123")] ∧
    aggA1.bankAccount.balance = Money.new 1000 moneyVND ∧
    aggA1.depositBalance 500 "p1" = .error .currencyMismatch ∧
    aggA1.withdrawBalance 200 "p2" = .error .currencyMismatch := by
  decide

/-- C4: the failure half of the withdraw contract holds — a non-positive
amount fails with InvalidAmount, an amount exceeding the balance fails with
InsufficientBalance, and on failure the aggregate (events, changes count,
balance) is untouched.  The success half is broken by the currency mix: on
the account state of S2 (1000 VND after Create), a withdraw of 200 — where
`balance − amount ≥ 0` holds — returns a currency-mismatch error and emits
no `BalanceWithdrawedV1` event. -/
theorem c4_withdraw_contract_and_currency_bug :
    (∀ (a : BankAccountAggregate) (amount : Int) (pid : String),
        amount ≤ 0 →
        a.withdrawBalance amount pid = .error .invalidBalanceAmount) ∧
    (∀ (a : BankAccountAggregate) (amount : Int) (pid : String),
        0 < amount → a.bankAccount.balance.amount - amount < 0 →
        a.withdrawBalance amount pid = .error .notEnoughBalance) ∧
    aggA1.withdrawBalance 10000 "p2" = .error .notEnoughBalance ∧
    stepOr aggA1 (aggA1.withdrawBalance 10000 "p2") = aggA1 ∧
    (0 : Int) ≤ aggA1.bankAccount.balance.amount - 200 ∧
    aggA1.withdrawBalance 200 "p2" = .error .currencyMismatch ∧
    stepOr aggA1 (aggA1.withdrawBalance 200 "p2") = aggA1 := by
  refine ⟨?_, ?_, by decide, by decide, by decide, by decide, by decide⟩
  · intro a amount pid h
    unfold BankAccountAggregate.withdrawBalance
    rw [if_pos h]
  · intro a amount pid h1 h2
    unfold BankAccountAggregate.withdrawBalance
    rw [if_neg (by omega)]
    simp [Money.subtract, Money.new, moneyVND, Money.isNegative, h2]

/-- C4 witness: the two hypothesised branches at concrete inputs. -/
theorem c4_withdraw_contract_witness :
    aggA1.withdrawBalance 0 "p" = .error .invalidBalanceAmount ∧
    aggA1.withdrawBalance 10000 "p" = .error .notEnoughBalance :=
  ⟨c4_withdraw_contract_and_currency_bug.1 aggA1 0 "p" (by decide),
   c4_withdraw_contract_and_currency_bug.2.1 aggA1 10000 "p" (by decide)
     (by decide)⟩

/-- C6: the snapshot upsert can never succeed against the migrated schema.
`saveSnapshotQuery` declares `ON CONFLICT (aggregate_id, version)`, but the
only unique constraint migrations/001 creates on `microservices.snapshots`
is the primary key on `aggregate_id` alone, so PostgreSQL rejects every
execution of the statement (42P10) — no snapshot row is ever added or
replaced; moreover the primary key itself makes a second snapshot at a
different version of the same aggregate impossible, contradicting the
claimed coexistence of versions. -/
theorem c6_snapshot_upsert_always_rejected :
    (∀ (tbl : List SnapRow) (row : SnapRow),
        execSaveSnapshot tbl row = .error .noMatchingConflictConstraint) ∧
    (∀ tbl : List SnapRow, snapshotsTableWf tbl →
        ∀ r1 ∈ tbl, ∀ r2 ∈ tbl, r1.aggregateID = r2.aggregateID →
          r1.version = r2.version) := by
  constructor
  · intro tbl row
    unfold execSaveSnapshot
    rw [if_neg (by decide)]
  · intro tbl h r1 h1 r2 h2 hid
    exact congrArg SnapRow.version (h r1 h1 r2 h2 hid)

/-- C6 witness: the rejected upsert and the single-version constraint at a
concrete table. -/
theorem c6_snapshot_upsert_witness :
    execSaveSnapshot [] (NewSnapshotFromAggregate aggB5)
      = .error .noMatchingConflictConstraint ∧
    (NewSnapshotFromAggregate aggB5).version
      = (NewSnapshotFromAggregate aggB5).version :=
  ⟨c6_snapshot_upsert_always_rejected.1 [] (NewSnapshotFromAggregate aggB5),
   c6_snapshot_upsert_always_rejected.2 [NewSnapshotFromAggregate aggB5]
     (by intro r1 h1 r2 h2 _; simp at h1 h2; rw [h1, h2])
     (NewSnapshotFromAggregate aggB5) (by simp)
     (NewSnapshotFromAggregate aggB5) (by simp) rfl⟩

/-- C7 counterexample: the published message does not carry the aggregate id
as its key — `ProcessEvents` sets no `Key` at all, so the key is the empty
string while the batch's aggregate id is "A". -/
theorem c7_message_key_counterexample :
    (processEvents "es" [rowCreatedA]).map KafkaMessage.key = some "" ∧
    rowCreatedA.aggregateID = "A" ∧ ("" : String) ≠ "A" := by
  decide

/-- C7 amended: publish produces exactly one message on the topic
`"<pfx>_<aggregate_type>"` derived from the first event of the batch, with an
empty key; the writer balances by least-bytes, not by key hash, so batches of
the same aggregate are not guaranteed to land on one partition. -/
theorem c7_topic_name_and_empty_key :
    ∀ (topicPfx : String) (e : EsEvent) (rest : List EsEvent),
      processEvents topicPfx (e :: rest)
        = some { topic := GetTopicName topicPfx e.aggregateType, key := "",
                 value := e :: rest } ∧
      GetTopicName topicPfx e.aggregateType
        = topicPfx ++ "_" ++ e.aggregateType ∧
      NewWriter.balancer = .leastBytes := by
  intro topicPfx e rest
  exact ⟨rfl, rfl, rfl⟩

/-- C10: `NewBankAccountAggregate` returns nil exactly for the empty id and
otherwise a version-0 aggregate of type BankAccount; the deposit command
handler and the get-by-id query handler hand the aggregate straight to
`Load` with no nil check, so with an empty id they dereference nil. -/
theorem c10_nil_aggregate_on_empty_id :
    (∀ id : String, NewBankAccountAggregate id = none ↔ id = "") ∧
    (∀ (id : String) (a : BankAccountAggregate),
        NewBankAccountAggregate id = some a →
        a.base.version = 0 ∧ a.base.type = BankAccountAggregateType ∧
          a.base.id = id) ∧
    (∀ (pg : PgState) (F : Nat) (publishOk : List EsEvent → Bool)
        (amount : Int) (pid : String),
        depositeBalanceHandle pg F publishOk "" amount pid = .nilPanic) ∧
    (∀ (pg : PgState) (mongo : MongoState),
        getBankAccountByIDHandle pg mongo "" true = .nilPanic) ∧
    (∀ (pg : PgState) (mongo : MongoState),
        mongoFindOne mongo "" = none →
        getBankAccountByIDHandle pg mongo "" false = .nilPanic) := by
  refine ⟨?_, ?_, ?_, ?_, ?_⟩
  · intro id
    by_cases h : id = ""
    · simp [NewBankAccountAggregate, h]
    · simp [NewBankAccountAggregate, h]
  · intro id a h
    unfold NewBankAccountAggregate at h
    split at h
    · exact absurd h (by simp)
    · cases h
      exact ⟨rfl, rfl, rfl⟩
  · intro pg F publishOk amount pid
    unfold depositeBalanceHandle
    simp [NewBankAccountAggregate]
  · intro pg mongo
    unfold getBankAccountByIDHandle
    simp [NewBankAccountAggregate]
  · intro pg mongo h
    unfold getBankAccountByIDHandle
    simp [NewBankAccountAggregate, h]

/-- C10 witness: the branches at concrete inputs. -/
theorem c10_nil_aggregate_witness :
    NewBankAccountAggregate "" = none ∧
    aggA.base.version = 0 ∧
    depositeBalanceHandle pgA 5 (fun _ => true) "" 100 "p" = .nilPanic ∧
    getBankAccountByIDHandle pgA [] "" false = .nilPanic :=
  ⟨(c10_nil_aggregate_on_empty_id.1 "").mpr rfl,
   (c10_nil_aggregate_on_empty_id.2.1 "A" aggA (by decide)).1,
   c10_nil_aggregate_on_empty_id.2.2.1 pgA 5 (fun _ => true) 100 "p",
   c10_nil_aggregate_on_empty_id.2.2.2.2 pgA [] (by decide)⟩

/-! ## Helper lemmas shared by the Save theorems -/

/-- The snapshot upsert is rejected on every input (conflict-target /
constraint mismatch); shared helper. -/
theorem execSaveSnapshot_error (tbl : List SnapRow) (row : SnapRow) :
    execSaveSnapshot tbl row = .error .noMatchingConflictConstraint := by
  unfold execSaveSnapshot
  rw [if_neg (by decide)]

/-- A successful transactional insert appends the batch to the log. -/
theorem insertEventsTx_ok_append :
    ∀ (evs : List EsEvent) (log r : List EsEvent),
      insertEventsTx log evs = .ok r → r = log ++ evs := by
  intro evs
  induction evs with
  | nil =>
      intro log r h
      unfold insertEventsTx at h
      simp only [List.foldlM_nil] at h
      cases h
      simp
  | cons e es ih =>
      intro log r h
      unfold insertEventsTx at h
      rw [List.foldlM_cons] at h
      split at h
      · simp [Bind.bind, Except.bind] at h
      · have h' : insertEventsTx (log ++ [e]) es = .ok r := by
          simpa [insertEventsTx, Bind.bind, Except.bind] using h
        have := ih (log ++ [e]) r h'
        simpa using this

/-- Full case characterization of a `Save` run; every claim about Save's
atomicity, snapshot cadence and publish ordering reads off one of these five
branches. -/
theorem save_spec (st : PgState) (a : BankAccountAggregate) (F : Nat)
    (publishOk : List EsEvent → Bool) :
    (a.base.changes.isEmpty = true ∧
      Save st a F publishOk = ⟨st, a, [], .ok ()⟩) ∨
    (a.base.changes.isEmpty = false ∧
      ((∃ e, insertEventsTx st.events (serializeChanges a) = .error e ∧
          Save st a F publishOk = ⟨st, a, [.append, .rollback], .error e⟩) ∨
       (∃ newLog, insertEventsTx st.events (serializeChanges a) = .ok newLog ∧
         ((a.base.version % F = 0 ∧
            Save st a F publishOk
              = ⟨st, a, [.append, .snapshotWrite, .rollback],
                 .error .noMatchingConflictConstraint⟩) ∨
          (¬ a.base.version % F = 0 ∧
            ((publishOk (serializeChanges a) = true ∧
               Save st a F publishOk
                 = ⟨⟨newLog, st.snapshots⟩, a,
                    [.append, .publish, .commit], .ok ()⟩) ∨
             (publishOk (serializeChanges a) = false ∧
               Save st a F publishOk
                 = ⟨st, a, [.append, .publish, .rollback],
                    .error .busError⟩))))))) := by
  by_cases h1 : a.base.changes.isEmpty
  · left
    refine ⟨h1, ?_⟩
    unfold Save
    rw [if_pos h1]
  · right
    refine ⟨by simpa using h1, ?_⟩
    cases hins : insertEventsTx st.events (serializeChanges a) with
    | error e =>
        left
        exact ⟨e, rfl, by unfold Save; rw [if_neg h1]; simp [hins]⟩
    | ok newLog =>
        right
        refine ⟨newLog, rfl, ?_⟩
        by_cases hf : a.base.version % F = 0
        · left
          refine ⟨hf, ?_⟩
          unfold Save
          rw [if_neg h1]
          simp only [hins]
          rw [if_pos (by simpa using hf)]
          simp [execSaveSnapshot_error]
        · right
          refine ⟨hf, ?_⟩
          by_cases hp : publishOk (serializeChanges a) = true
          · left
            refine ⟨hp, ?_⟩
            unfold Save
            rw [if_neg h1]
            simp only [hins]
            rw [if_neg (by simpa using hf), if_pos hp]
          · right
            refine ⟨by simpa using hp, ?_⟩
            unfold Save
            rw [if_neg h1]
            simp only [hins]
            rw [if_neg (by simpa using hf), if_neg hp]

/-- C1: append-then-publish is atomic.  If the bus publish of a non-empty
batch fails, `Save` returns an error and the store is exactly as before — a
subsequent `LoadEvents` of the aggregate sees none of the batch; and the log
gains rows only through the branch whose trace invokes the publish strictly
before the commit. -/
theorem c1_publish_failure_rolls_back :
    ∀ (st : PgState) (a : BankAccountAggregate) (F : Nat)
      (publishOk : List EsEvent → Bool),
      (a.base.changes ≠ [] →
        publishOk (serializeChanges a) = false →
        (Save st a F publishOk).st = st ∧
        (∃ e, (Save st a F publishOk).res = .error e) ∧
        (∀ id, getEvents (Save st a F publishOk).st id = getEvents st id)) ∧
      ((Save st a F publishOk).st.events ≠ st.events →
        ∃ pre mid, (Save st a F publishOk).trace
          = pre ++ SaveStep.publish :: (mid ++ [SaveStep.commit])) := by
  intro st a F publishOk
  rcases save_spec st a F publishOk with ⟨hemp, heq⟩ | ⟨hemp, hcase⟩
  · constructor
    · intro hne _
      exact absurd (List.isEmpty_iff.mp hemp) hne
    · intro hch
      rw [heq] at hch
      exact absurd rfl hch
  · constructor
    · intro _ hpub
      rcases hcase with ⟨e, _, heq⟩ | ⟨newLog, _, hrest⟩
      · rw [heq]
        exact ⟨rfl, ⟨e, rfl⟩, fun _ => rfl⟩
      · rcases hrest with ⟨_, heq⟩ | ⟨_, ⟨hp, _⟩ | ⟨_, heq⟩⟩
        · rw [heq]
          exact ⟨rfl, ⟨.noMatchingConflictConstraint, rfl⟩, fun _ => rfl⟩
        · rw [hpub] at hp
          exact absurd hp (by simp)
        · rw [heq]
          exact ⟨rfl, ⟨.busError, rfl⟩, fun _ => rfl⟩
    · intro hch
      rcases hcase with ⟨e, _, heq⟩ | ⟨newLog, _, hrest⟩
      · rw [heq] at hch
        exact absurd rfl hch
      · rcases hrest with ⟨_, heq⟩ | ⟨_, ⟨_, heq⟩ | ⟨_, heq⟩⟩
        · rw [heq] at hch
          exact absurd rfl hch
        · rw [heq]
          exact ⟨[.append], [], rfl⟩
        · rw [heq] at hch
          exact absurd rfl hch

/-- C1 witness: a failed publish of a one-event batch leaves the empty store
empty and surfaces a bus error. -/
theorem c1_publish_failure_witness :
    (Save ⟨[], []⟩ aggA1 5 (fun _ => false)).st = (⟨[], []⟩ : PgState) ∧
    (Save ⟨[], []⟩ aggA1 5 (fun _ => false)).res = .error .busError :=
  ⟨((c1_publish_failure_rolls_back ⟨[], []⟩ aggA1 5 (fun _ => false)).1
      (by decide) rfl).1,
   by decide⟩

/-- C8 counterexample: a successful non-boundary Save leaves the aggregate's
uncommitted changes list as it was (no clear_changes anywhere in Save); and
at a snapshot boundary (version 5, F = 5) the snapshot write is rejected by
the schema, so the whole Save fails and no snapshot row is written — against
the claim that a successful Save clears changes and that a snapshot is
written exactly at multiples of F. -/
theorem c8_save_counterexample :
    (Save ⟨[], []⟩ aggA1 5 (fun _ => true)).res = .ok () ∧
    (Save ⟨[], []⟩ aggA1 5 (fun _ => true)).agg.base.changes ≠ [] ∧
    aggB5.base.version % 5 = 0 ∧ aggB5.base.changes ≠ [] ∧
    (Save ⟨[], []⟩ aggB5 5 (fun _ => true)).res
      = .error .noMatchingConflictConstraint ∧
    (Save ⟨[], []⟩ aggB5 5 (fun _ => true)).st.snapshots = [] := by
  decide

/-- C8 amended: Save with empty changes performs no append, snapshot or
publish and returns success.  For non-empty changes, Save reaches the
snapshot write exactly when the post-batch version is a multiple of F — but
that write is rejected by the migrated schema, so boundary Saves error with
the store unchanged; a Save that does return success ran off a non-boundary
version, appended the serialized batch, wrote no snapshot and left the
aggregate — its changes list included — untouched. -/
theorem c8_save_noop_snapshot_and_changes :
    ∀ (st : PgState) (a : BankAccountAggregate) (F : Nat)
      (publishOk : List EsEvent → Bool),
      (a.base.changes = [] → Save st a F publishOk = ⟨st, a, [], .ok ()⟩) ∧
      (a.base.changes ≠ [] → (Save st a F publishOk).res = .ok () →
        a.base.version % F ≠ 0 ∧
        SaveStep.snapshotWrite ∉ (Save st a F publishOk).trace ∧
        (Save st a F publishOk).st.snapshots = st.snapshots ∧
        (Save st a F publishOk).st.events = st.events ++ serializeChanges a ∧
        (Save st a F publishOk).agg = a) ∧
      (a.base.changes ≠ [] → a.base.version % F = 0 →
        (Save st a F publishOk).st = st ∧
        (Save st a F publishOk).res ≠ .ok ()) := by
  intro st a F publishOk
  rcases save_spec st a F publishOk with ⟨hemp, heq⟩ | ⟨hemp, hcase⟩
  · refine ⟨fun _ => heq, ?_, ?_⟩
    · intro hne _
      exact absurd (List.isEmpty_iff.mp hemp) hne
    · intro hne _
      exact absurd (List.isEmpty_iff.mp hemp) hne
  · have hne' : ¬ a.base.changes.isEmpty := by simp [hemp]
    refine ⟨?_, ?_, ?_⟩
    · intro h0
      exact absurd (by simp [h0]) hne'
    · intro _ hok
      rcases hcase with ⟨e, _, heq⟩ | ⟨newLog, hins, hrest⟩
      · rw [heq] at hok
        exact absurd hok (by simp)
      · rcases hrest with ⟨hf, heq⟩ | ⟨hf, ⟨_, heq⟩ | ⟨_, heq⟩⟩
        · rw [heq] at hok
          exact absurd hok (by simp)
        · rw [heq]
          exact ⟨hf, by simp, rfl,
            insertEventsTx_ok_append (serializeChanges a) st.events newLog hins,
            rfl⟩
        · rw [heq] at hok
          exact absurd hok (by simp)
    · intro _ hf
      rcases hcase with ⟨e, _, heq⟩ | ⟨newLog, _, hrest⟩
      · rw [heq]
        exact ⟨rfl, by simp⟩
      · rcases hrest with ⟨_, heq⟩ | ⟨hnf, _⟩
        · rw [heq]
          exact ⟨rfl, by simp⟩
        · exact absurd hf hnf

/-- C8 witness: the empty-changes no-op and the failing boundary Save at
concrete inputs. -/
theorem c8_save_witness :
    Save ⟨[], []⟩ aggA 5 (fun _ => true) = ⟨⟨[], []⟩, aggA, [], .ok ()⟩ ∧
    (Save ⟨[], []⟩ aggB5 5 (fun _ => true)).st = (⟨[], []⟩ : PgState) :=
  ⟨(c8_save_noop_snapshot_and_changes ⟨[], []⟩ aggA 5 (fun _ => true)).1
      (by decide),
   ((c8_save_noop_snapshot_and_changes ⟨[], []⟩ aggB5 5 (fun _ => true)).2.2
      (by decide) (by decide)).1⟩

/-! ## Helper lemmas for the projection-consumer theorems -/

/-- A row whose tag matches its payload deserializes to the payload. -/
theorem deserializeEvent_ok (e : EsEvent) (h : e.eventType = e.data.eventType) :
    deserializeEvent e = .ok e.data := by
  unfold deserializeEvent knownEventType
  rw [h]
  cases e.data <;> simp [DomainEvent.eventType]

/-- The Go uint64 `version - 1` equals the mathematical one for versions in
`[1, 2^64)`. -/
theorem u64pred_eq (v : Nat) (h1 : 1 ≤ v) (h2 : v < 2 ^ 64) :
    u64pred v = v - 1 := by
  unfold u64pred
  omega

/-- After `DeleteByAggregateID`, no document for that aggregate remains. -/
theorem mongoDelete_any_false (st : MongoState) (id : String) :
    (mongoDelete st id).any (fun r => r.aggregateID = id) = false := by
  unfold mongoDelete
  simp only [List.any_eq_false]
  intro x hx
  have := (List.mem_filter.mp hx).2
  simpa using this

/-- Re-inserting the rebuilt row after the delete finds exactly that row. -/
theorem findOne_delete_append (st : MongoState) (id : String)
    (p : BankAccountMongoProjection) (hp : p.aggregateID = id) :
    mongoFindOne (mongoDelete st id ++ [p]) id = some p := by
  unfold mongoFindOne mongoDelete
  induction st with
  | nil => simp [hp]
  | cons q qs ih =>
      by_cases hq : q.aggregateID = id
      · simpa [hq] using ih
      · simpa [List.filter_cons, hq, List.find?] using ih

/-- The rebuilt row inserts cleanly after the delete. -/
theorem mongoInsert_after_delete (st : MongoState) (id : String)
    (p : BankAccountMongoProjection) (hp : p.aggregateID = id) :
    mongoInsert (mongoDelete st id) p = .ok (mongoDelete st id ++ [p]) := by
  unfold mongoInsert
  rw [if_neg]
  intro hc
  rw [hp] at hc
  rw [mongoDelete_any_false st id] at hc
  exact Bool.false_ne_true hc

/-- The rebuild path of `handle`: when the projection's `When` errs and the
aggregate loads, the row is deleted, the loaded aggregate's projection is
inserted, the message offset is committed, and the `When` error is returned. -/
theorem subscriptionHandle_rebuild (pg : PgState) (mongo : MongoState)
    (e : EsEvent) (werr : GoErr) (a agg : BankAccountAggregate)
    (hwhen : projectionWhen mongo e = .error werr)
    (ha : NewBankAccountAggregate e.aggregateID = some a)
    (hload : Load pg a = .ok agg)
    (hid : agg.bankAccount.aggregateID = e.aggregateID) :
    subscriptionHandle pg mongo e
      = (mongoDelete mongo e.aggregateID ++ [BankAccountToMongoProjection agg],
         .committedErr werr) := by
  unfold subscriptionHandle recreateProjection
  simp only [hwhen, ha, hload]
  have hpid : (BankAccountToMongoProjection agg).aggregateID = e.aggregateID :=
    hid
  simp only [mongoInsert_after_delete mongo e.aggregateID
    (BankAccountToMongoProjection agg) hpid]

/-- A Deposited/Withdrawed row goes through the version-gated concurrent
update with expected version `GetVersion() - 1` (some callback). -/
theorem projectionWhen_delta_eq (mongo : MongoState) (e : EsEvent)
    (amount : Int) (pid : String)
    (hdata : e.data = .deposited amount pid ∨ e.data = .withdrawed amount pid)
    (het : e.eventType = e.data.eventType) :
    ∃ cb, projectionWhen mongo e
      = updateConcurrently mongo e.aggregateID cb (u64pred e.version) := by
  unfold projectionWhen
  rw [deserializeEvent_ok e het]
  rcases hdata with hd | hd <;> rw [hd] <;> exact ⟨_, rfl⟩

/-- A Created row is gated on version 1 and then inserted. -/
theorem projectionWhen_created_eq (mongo : MongoState) (e : EsEvent)
    (email fn ln ph : String) (bal : Money)
    (hd : e.data = .created email fn ln bal ph)
    (het : e.eventType = e.data.eventType) :
    projectionWhen mongo e
      = if e.version ≠ 1 then .error .invalidEventVersion
        else mongoInsert mongo
          { aggregateID := e.aggregateID, version := e.version, email := email,
            firstName := fn, lastName := ln,
            balance := { amount := bal.asMajorUnits, currency := bal.currency },
            passwordHash := ph, status := "" } := by
  unfold projectionWhen
  rw [deserializeEvent_ok e het, hd]

/-- The version gate with a present row. -/
theorem updateConcurrently_some (st : MongoState) (id : String)
    (cb : BankAccountMongoProjection → BankAccountMongoProjection) (exp : Nat)
    (row : BankAccountMongoProjection) (hfind : mongoFindOne st id = some row) :
    updateConcurrently st id cb exp
      = if row.version = exp then .ok (mongoReplace st (cb row))
        else .error .invalidEventVersion := by
  unfold updateConcurrently
  rw [hfind]
  by_cases hv : row.version = exp
  · simp [hv]
  · simp [hv]

/-- The version gate with no row. -/
theorem updateConcurrently_none (st : MongoState) (id : String)
    (cb : BankAccountMongoProjection → BankAccountMongoProjection)
    (exp : Nat) (hfind : mongoFindOne st id = none) :
    updateConcurrently st id cb exp = .error .noRows := by
  unfold updateConcurrently
  rw [hfind]

/-- C2: the read-model consumer is version-gated and self-healing.  For a
Deposited/Withdrawed event with a stored row, the update applies exactly when
`row.version = event.version − 1` and otherwise fails the gate; with no row
it fails; a Created event is accepted only at version 1 into a collection
with no row for the aggregate.  Whenever `When` fails and the aggregate loads
from the event store, `handle` deletes the row, re-inserts the full projected
state of the loaded aggregate, and the resulting read-model row equals that
projection. -/
theorem c2_version_gate_and_rebuild :
    (∀ (mongo : MongoState) (e : EsEvent) (amount : Int) (pid : String)
        (row : BankAccountMongoProjection),
        1 ≤ e.version → e.version < 2 ^ 64 →
        (e.data = .deposited amount pid ∨ e.data = .withdrawed amount pid) →
        e.eventType = e.data.eventType →
        mongoFindOne mongo e.aggregateID = some row →
        (row.version = e.version - 1 →
          ∃ st', projectionWhen mongo e = .ok st') ∧
        (row.version ≠ e.version - 1 →
          projectionWhen mongo e = .error .invalidEventVersion)) ∧
    (∀ (mongo : MongoState) (e : EsEvent) (amount : Int) (pid : String),
        (e.data = .deposited amount pid ∨ e.data = .withdrawed amount pid) →
        e.eventType = e.data.eventType →
        mongoFindOne mongo e.aggregateID = none →
        projectionWhen mongo e = .error .noRows) ∧
    (∀ (mongo : MongoState) (e : EsEvent) (email fn ln ph : String)
        (bal : Money) (st' : MongoState),
        e.data = .created email fn ln bal ph →
        e.eventType = e.data.eventType →
        projectionWhen mongo e = .ok st' →
        e.version = 1 ∧ mongoFindOne mongo e.aggregateID = none) ∧
    (∀ (pg : PgState) (mongo : MongoState) (e : EsEvent) (werr : GoErr)
        (a agg : BankAccountAggregate),
        projectionWhen mongo e = .error werr →
        NewBankAccountAggregate e.aggregateID = some a →
        Load pg a = .ok agg →
        agg.bankAccount.aggregateID = e.aggregateID →
        subscriptionHandle pg mongo e
          = (mongoDelete mongo e.aggregateID
              ++ [BankAccountToMongoProjection agg], .committedErr werr) ∧
        mongoFindOne (subscriptionHandle pg mongo e).1 e.aggregateID
          = some (BankAccountToMongoProjection agg)) := by
  refine ⟨?_, ?_, ?_, ?_⟩
  · intro mongo e amount pid row h1 h2 hdata het hfind
    obtain ⟨cb, hw⟩ := projectionWhen_delta_eq mongo e amount pid hdata het
    rw [hw, updateConcurrently_some mongo e.aggregateID cb _ row hfind,
      u64pred_eq e.version h1 h2]
    constructor
    · intro hv
      rw [if_pos hv]
      exact ⟨_, rfl⟩
    · intro hv
      rw [if_neg hv]
  · intro mongo e amount pid hdata het hfind
    obtain ⟨cb, hw⟩ := projectionWhen_delta_eq mongo e amount pid hdata het
    rw [hw, updateConcurrently_none mongo e.aggregateID cb _ hfind]
  · intro mongo e email fn ln ph bal st' hd het hok
    rw [projectionWhen_created_eq mongo e email fn ln ph bal hd het] at hok
    by_cases hv : e.version = 1
    · refine ⟨hv, ?_⟩
      rw [if_neg (by simp [hv])] at hok
      unfold mongoInsert at hok
      by_cases hdup : mongo.any (fun r => r.aggregateID = e.aggregateID)
      · rw [if_pos hdup] at hok
        cases hok
      · unfold mongoFindOne
        rw [List.find?_eq_none]
        intro x hx
        have hdup' : ∀ y ∈ mongo, ¬y.aggregateID = e.aggregateID := by
          simpa using hdup
        simpa using hdup' x hx
    · rw [if_pos (by simp [hv])] at hok
      cases hok
  · intro pg mongo e werr a agg hwhen ha hload hid
    have hmain := subscriptionHandle_rebuild pg mongo e werr a agg hwhen ha
      hload hid
    refine ⟨hmain, ?_⟩
    rw [hmain]
    exact findOne_delete_append mongo e.aggregateID
      (BankAccountToMongoProjection agg) hid

/-- C2 witness: a gap (row at version 5, event at version 7) fails the gate,
and `handle` rebuilds the row from the event store. -/
theorem c2_version_gate_witness :
    projectionWhen [mongoRowA 5] (rowDepositedA 7)
      = .error .invalidEventVersion ∧
    mongoFindOne (subscriptionHandle pgA [mongoRowA 5] (rowDepositedA 7)).1 "A"
      = some (BankAccountToMongoProjection aggALoaded) :=
  ⟨((c2_version_gate_and_rebuild.1 [mongoRowA 5] (rowDepositedA 7) 500 "p1"
      (mongoRowA 5) (by decide) (by decide) (Or.inl rfl) (by decide)
      (by decide)).2 (by decide)),
   (c2_version_gate_and_rebuild.2.2.2 pgA [mongoRowA 5] (rowDepositedA 7)
      .invalidEventVersion aggA aggALoaded (by decide) (by decide) (by decide)
      (by decide)).2⟩

/-- C9 counterexample: redelivery is not an idempotent no-op.  A Deposited
event redelivered at the row's own version (3 ≤ 3) fails the gate with
`ErrInvalidEventVersion` rather than being skipped, and `handle` then runs
the rebuild, changing the stored row (the rebuilt row is at version 1); a
redelivered Created event hits the duplicate-aggregate insert and is
returned as an error that likewise triggers the rebuild — it is not treated
as a logged idempotent replay. -/
theorem c9_redelivery_counterexample :
    projectionWhen [mongoRowA 3] (rowDepositedA 3)
      = .error .invalidEventVersion ∧
    (subscriptionHandle pgA [mongoRowA 3] (rowDepositedA 3)).2 ≠ .ok ∧
    (subscriptionHandle pgA [mongoRowA 3] (rowDepositedA 3)).1
      ≠ [mongoRowA 3] ∧
    projectionWhen [mongoRowA 1] rowCreatedA = .error .duplicateKey ∧
    (subscriptionHandle pgA [mongoRowA 1] rowCreatedA).2
      = .committedErr .duplicateKey := by
  decide

/-- C9 amended: a redelivered Deposited/Withdrawed event (version ≤ stored
row's version) always fails the version gate with `ErrInvalidEventVersion`,
and a redelivered Created event against an existing row fails with a
duplicate-key error; in both cases the consumer reacts by rebuilding the
projection from the event store (delete, reload, re-insert) and returning
the gate error after committing the offset — not by a silent no-op. -/
theorem c9_redelivery_triggers_rebuild :
    (∀ (mongo : MongoState) (e : EsEvent) (amount : Int) (pid : String)
        (row : BankAccountMongoProjection),
        1 ≤ e.version → e.version < 2 ^ 64 →
        (e.data = .deposited amount pid ∨ e.data = .withdrawed amount pid) →
        e.eventType = e.data.eventType →
        mongoFindOne mongo e.aggregateID = some row →
        e.version ≤ row.version →
        projectionWhen mongo e = .error .invalidEventVersion) ∧
    (∀ (mongo : MongoState) (e : EsEvent) (email fn ln ph : String)
        (bal : Money) (row : BankAccountMongoProjection),
        e.data = .created email fn ln bal ph →
        e.eventType = e.data.eventType →
        e.version = 1 →
        mongoFindOne mongo e.aggregateID = some row →
        projectionWhen mongo e = .error .duplicateKey) ∧
    (∀ (pg : PgState) (mongo : MongoState) (e : EsEvent) (werr : GoErr)
        (a agg : BankAccountAggregate),
        projectionWhen mongo e = .error werr →
        NewBankAccountAggregate e.aggregateID = some a →
        Load pg a = .ok agg →
        agg.bankAccount.aggregateID = e.aggregateID →
        subscriptionHandle pg mongo e
          = (mongoDelete mongo e.aggregateID
              ++ [BankAccountToMongoProjection agg], .committedErr werr)) := by
  refine ⟨?_, ?_, ?_⟩
  · intro mongo e amount pid row h1 h2 hdata het hfind hle
    obtain ⟨cb, hw⟩ := projectionWhen_delta_eq mongo e amount pid hdata het
    rw [hw, updateConcurrently_some mongo e.aggregateID cb _ row hfind,
      u64pred_eq e.version h1 h2]
    rw [if_neg (by omega)]
  · intro mongo e email fn ln ph bal row hd het hv hfind
    rw [projectionWhen_created_eq mongo e email fn ln ph bal hd het]
    rw [if_neg (by simp [hv])]
    unfold mongoInsert
    rw [if_pos ?_]
    have hmem := List.mem_of_find?_eq_some hfind
    have hrow : row.aggregateID = e.aggregateID := by
      have := List.find?_some hfind
      simpa using this
    simp only [List.any_eq_true]
    exact ⟨row, hmem, by simpa using hrow⟩
  · intro pg mongo e werr a agg hwhen ha hload hid
    exact subscriptionHandle_rebuild pg mongo e werr a agg hwhen ha hload hid

/-- C9 witness: the redelivered events at concrete inputs. -/
theorem c9_redelivery_witness :
    projectionWhen [mongoRowA 3] (rowDepositedA 3)
      = .error .invalidEventVersion ∧
    projectionWhen [mongoRowA 1] rowCreatedA = .error .duplicateKey ∧
    subscriptionHandle pgA [mongoRowA 3] (rowDepositedA 3)
      = (mongoDelete [mongoRowA 3] "A"
          ++ [BankAccountToMongoProjection aggALoaded],
         .committedErr .invalidEventVersion) :=
  ⟨c9_redelivery_triggers_rebuild.1 [mongoRowA 3] (rowDepositedA 3) 500 "p1"
      (mongoRowA 3) (by decide) (by decide) (Or.inl rfl) (by decide)
      (by decide) (by decide),
   c9_redelivery_triggers_rebuild.2.1 [mongoRowA 1] rowCreatedA
      "test@email.com" "First" "Last" "bcrypt$password123"
      (Money.new 1000 moneyVND) (mongoRowA 1) rfl (by decide) (by decide)
      (by decide),
   c9_redelivery_triggers_rebuild.2.2 pgA [mongoRowA 3] (rowDepositedA 3)
      .invalidEventVersion aggA aggALoaded (by decide) (by decide) (by decide)
      (by decide)⟩

/-! ## Helper lemmas for GetByVersion (C5) -/

/-- The SELECT's `ORDER BY version` is the identity on a version-sorted row
list. -/
theorem sortByVersion_eq_self :
    ∀ l : List EsEvent,
      l.Pairwise (fun a b => a.version ≤ b.version) → sortByVersion l = l := by
  intro l
  induction l with
  | nil => intro _; rfl
  | cons x xs ih =>
      intro hp
      have hx : ∀ y ∈ xs, x.version ≤ y.version := (List.pairwise_cons.mp hp).1
      have hxs := ih (List.pairwise_cons.mp hp).2
      show insertByVersion x (sortByVersion xs) = x :: xs
      rw [hxs]
      cases xs with
      | nil => rfl
      | cons y ys =>
          unfold insertByVersion
          rw [if_pos (hx y (List.mem_cons_self y ys))]

/-- On a dense history starting after offset `s`, `WHERE version <= v` keeps
the first `v - s` rows. -/
theorem filter_le_dense :
    ∀ (rows : List EsEvent) (s v : Nat),
      rows.map EsEvent.version = List.range' (s + 1) rows.length →
      rows.filter (fun e => e.version ≤ v) = rows.take (v - s) := by
  intro rows
  induction rows with
  | nil => intro s v _; simp
  | cons e es ih =>
      intro s v h
      simp only [List.map_cons, List.length_cons, List.range'_succ,
        List.cons.injEq] at h
      obtain ⟨hver, htail⟩ := h
      by_cases hle : e.version ≤ v
      · have hsv : s < v := by omega
        obtain ⟨k, hk⟩ : ∃ k, v - s = k + 1 := ⟨v - s - 1, by omega⟩
        rw [List.filter_cons, if_pos (by simpa using hle), hk,
          List.take_succ_cons, ih (s + 1) v htail]
        have : v - (s + 1) = k := by omega
        rw [this]
      · have hv : v - s = 0 := by omega
        have : v - (s + 1) = 0 := by omega
        rw [List.filter_cons, if_neg (by simpa using hle), hv,
          ih (s + 1) v htail, this]
        simp

/-- On a dense history starting after offset `s`, `WHERE version > u` drops
the first `u - s` rows. -/
theorem filter_gt_dense :
    ∀ (rows : List EsEvent) (s u : Nat),
      rows.map EsEvent.version = List.range' (s + 1) rows.length →
      rows.filter (fun e => u < e.version) = rows.drop (u - s) := by
  intro rows
  induction rows with
  | nil => intro s u _; simp
  | cons e es ih =>
      intro s u h
      simp only [List.map_cons, List.length_cons, List.range'_succ,
        List.cons.injEq] at h
      obtain ⟨hver, htail⟩ := h
      by_cases hlt : u < e.version
      · have hus : u - s = 0 := by omega
        have h2 : u - (s + 1) = 0 := by omega
        rw [List.filter_cons, if_pos (by simpa using hlt), hus,
          ih (s + 1) u htail, h2]
        simp
      · obtain ⟨k, hk⟩ : ∃ k, u - s = k + 1 := ⟨u - s - 1, by omega⟩
        rw [List.filter_cons, if_neg (by simpa using hlt), hk,
          List.drop_succ_cons, ih (s + 1) u htail]
        have : u - (s + 1) = k := by omega
        rw [this]

/-- On a dense history starting after offset `s`, `WHERE version BETWEEN lo
AND hi` is take-then-drop. -/
theorem filter_range_dense :
    ∀ (rows : List EsEvent) (s lo hi : Nat),
      rows.map EsEvent.version = List.range' (s + 1) rows.length →
      rows.filter (fun e => lo ≤ e.version ∧ e.version ≤ hi)
        = (rows.take (hi - s)).drop (lo - 1 - s) := by
  intro rows
  induction rows with
  | nil => intro s lo hi _; simp
  | cons e es ih =>
      intro s lo hi h
      simp only [List.map_cons, List.length_cons, List.range'_succ,
        List.cons.injEq] at h
      obtain ⟨hver, htail⟩ := h
      have ihe := ih (s + 1) lo hi htail
      by_cases hhi : e.version ≤ hi
      · obtain ⟨k, hk⟩ : ∃ k, hi - s = k + 1 := ⟨hi - s - 1, by omega⟩
        have hks : hi - (s + 1) = k := by omega
        by_cases hlo : lo ≤ e.version
        · have hd : lo - 1 - s = 0 := by omega
          have hd2 : lo - 1 - (s + 1) = 0 := by omega
          rw [List.filter_cons, if_pos (by simp [hlo, hhi]), hk,
            List.take_succ_cons, hd, List.drop_zero, ihe, hks, hd2,
            List.drop_zero]
        · obtain ⟨j, hj⟩ : ∃ j, lo - 1 - s = j + 1 :=
            ⟨lo - 1 - s - 1, by omega⟩
          have hj2 : lo - 1 - (s + 1) = j := by omega
          rw [List.filter_cons, if_neg (by simp [hlo]), hk,
            List.take_succ_cons, hj, List.drop_succ_cons, ihe, hks, hj2]
      · have hk : hi - s = 0 := by omega
        have hks : hi - (s + 1) = 0 := by omega
        have hcond : ¬(lo ≤ e.version ∧ e.version ≤ hi) := fun hc => hhi hc.2
        rw [List.filter_cons, if_neg (by simpa using hcond), hk, ihe, hks]
        simp

/-- A dense history is version-sorted. -/
theorem dense_pairwise (rows : List EsEvent) (s : Nat)
    (h : rows.map EsEvent.version = List.range' (s + 1) rows.length) :
    rows.Pairwise (fun a b => a.version ≤ b.version) := by
  have hlt : (rows.map EsEvent.version).Pairwise (· < ·) := by
    rw [h]
    exact List.pairwise_lt_range' (s + 1) rows.length
  have := List.pairwise_map.mp hlt
  exact this.imp (fun hab => Nat.le_of_lt hab)

/-- One step of a rehydration replay. -/
theorem replayList_cons (a : BankAccountAggregate) (e : EsEvent)
    (es : List EsEvent) :
    replayList a (e :: es)
      = match deserializeEvent e with
        | .error er => .error er
        | .ok d =>
            match a.raiseEvent d with
            | .error er => .error er
            | .ok a1 => replayList a1 es := by
  unfold replayList
  rw [List.foldlM_cons]
  cases hdes : deserializeEvent e with
  | error er => simp [Bind.bind, Except.bind, hdes]
  | ok d =>
      cases hr : a.raiseEvent d with
      | error er => simp [Bind.bind, Except.bind, hdes, hr]
      | ok a1 => simp [Bind.bind, Except.bind, hdes, hr]

/-- `when` never touches the aggregate base. -/
theorem when_base (a b : BankAccountAggregate) (ev : DomainEvent)
    (h : a.when ev = .ok b) : b.base = a.base := by
  cases ev with
  | created em fn ln bal ph =>
      unfold BankAccountAggregate.when at h
      cases h
      rfl
  | deposited amt pid =>
      unfold BankAccountAggregate.when at h
      cases hd : a.bankAccount.deposit amt with
      | error er => simp [hd, Bind.bind, Except.bind] at h
      | ok bb =>
          simp only [hd, Bind.bind, Except.bind, pure, Except.pure,
            Except.ok.injEq] at h
          rw [← h]
  | withdrawed amt pid =>
      unfold BankAccountAggregate.when at h
      cases hd : a.bankAccount.withdraw amt with
      | error er => simp [hd, Bind.bind, Except.bind] at h
      | ok bb =>
          simp only [hd, Bind.bind, Except.bind, pure, Except.pure,
            Except.ok.injEq] at h
          rw [← h]

/-- `RaiseEvent` only bumps the version of the base. -/
theorem raiseEvent_base (a b : BankAccountAggregate) (ev : DomainEvent)
    (h : a.raiseEvent ev = .ok b) :
    b.base = { a.base with version := a.base.version + 1 } := by
  unfold BankAccountAggregate.raiseEvent at h
  cases hw : a.when ev with
  | error er => simp [hw, Bind.bind, Except.bind] at h
  | ok a1 =>
      simp only [hw, Bind.bind, Except.bind, pure, Except.pure,
        Except.ok.injEq] at h
      rw [← h]
      simp [when_base a a1 ev hw]

/-- A successful replay of `l` advances the version by `l.length` and leaves
id, type and changes alone. -/
theorem replay_base :
    ∀ (l : List EsEvent) (a b : BankAccountAggregate),
      replayList a l = .ok b →
      b.base = { a.base with version := a.base.version + l.length } := by
  intro l
  induction l with
  | nil =>
      intro a b h
      unfold replayList at h
      rw [List.foldlM_nil] at h
      cases h
      simp
  | cons e es ih =>
      intro a b h
      rw [replayList_cons] at h
      split at h
      · cases h
      · split at h
        · cases h
        · rename_i a1 hr
          rw [ih a1 b h, raiseEvent_base a a1 _ hr]
          simp only [List.length_cons]
          congr 1
          omega

/-- Replay splits along list append. -/
theorem replayList_append :
    ∀ (l1 : List EsEvent) (a : BankAccountAggregate) (l2 : List EsEvent),
      replayList a (l1 ++ l2)
        = match replayList a l1 with
          | .error er => .error er
          | .ok b => replayList b l2 := by
  intro l1
  induction l1 with
  | nil =>
      intro a l2
      have hnil : replayList a [] = .ok a := rfl
      rw [List.nil_append, hnil]
  | cons e es ih =>
      intro a l2
      rw [List.cons_append, replayList_cons, replayList_cons]
      cases hdes : deserializeEvent e with
      | error er => simp
      | ok d =>
          cases hr : a.raiseEvent d with
          | error er => simp [hr]
          | ok a1 =>
              simp only [hr]
              exact ih a1 l2

/-- A successful full replay succeeds on every prefix, with the suffix
carrying on to the same final state. -/
theorem replay_prefix_ok (rows : List EsEvent) (a afull : BankAccountAggregate)
    (h : replayList a rows = .ok afull) (k : Nat) :
    ∃ apre, replayList a (rows.take k) = .ok apre ∧
      replayList apre (rows.drop k) = .ok afull := by
  have hsplit := replayList_append (rows.take k) a (rows.drop k)
  rw [List.take_append_drop, h] at hsplit
  cases hp : replayList a (rows.take k) with
  | error er =>
      rw [hp] at hsplit
      cases hsplit
  | ok apre =>
      rw [hp] at hsplit
      exact ⟨apre, rfl, hsplit.symm⟩

/-- Replay step with a known-good deserialization. -/
theorem replayList_cons_ok (a : BankAccountAggregate) (e : EsEvent)
    (es : List EsEvent) (d : DomainEvent)
    (hdes : deserializeEvent e = .ok d) :
    replayList a (e :: es)
      = match a.raiseEvent d with
        | .error er => .error er
        | .ok a1 => replayList a1 es := by
  rw [replayList_cons, hdes]

/-- Replay step with a failing deserialization. -/
theorem replayList_cons_err (a : BankAccountAggregate) (e : EsEvent)
    (es : List EsEvent) (er : GoErr)
    (hdes : deserializeEvent e = .error er) :
    replayList a (e :: es) = .error er := by
  rw [replayList_cons, hdes]

/-- Erasing the hash twice is erasing it once. -/
theorem erasePwAgg_idem (a : BankAccountAggregate) :
    erasePwAgg (erasePwAgg a) = erasePwAgg a := rfl

/-- `RaiseEvent` is insensitive to the password hash: states equal up to the
hash step to states equal up to the hash (with identical errors). -/
theorem raiseEvent_erase_congr (x y : BankAccountAggregate) (d : DomainEvent)
    (h : erasePwAgg x = erasePwAgg y) :
    (x.raiseEvent d).map erasePwAgg = (y.raiseEvent d).map erasePwAgg := by
  have hbase : x.base = y.base := by
    simpa [erasePwAgg] using congrArg BankAccountAggregate.base h
  have hflds : erasePw x.bankAccount = erasePw y.bankAccount := by
    simpa [erasePwAgg] using congrArg BankAccountAggregate.bankAccount h
  simp only [erasePw, BankAccount.mk.injEq, and_true] at hflds
  obtain ⟨h1, h2, h3, h4, h5, h6, h7, h8⟩ := hflds
  cases d with
  | created em fn ln bal ph =>
      unfold BankAccountAggregate.raiseEvent BankAccountAggregate.when
      simp [Bind.bind, Except.bind, pure, Except.pure, Except.map,
        erasePwAgg, erasePw, hbase, h1, h6, h7, h8]
  | deposited amt pid =>
      unfold BankAccountAggregate.raiseEvent BankAccountAggregate.when
        BankAccount.deposit
      rw [← h5]
      cases hadd : x.bankAccount.balance.add (Money.new amt moneyUSD) with
      | error er =>
          simp [hadd, Bind.bind, Except.bind, Except.map]
      | ok r =>
          simp [hadd, Bind.bind, Except.bind, pure, Except.pure, Except.map,
            erasePwAgg, erasePw, hbase, h1, h2, h3, h4, h6, h7, h8]
  | withdrawed amt pid =>
      unfold BankAccountAggregate.raiseEvent BankAccountAggregate.when
        BankAccount.withdraw
      rw [← h5]
      cases hsub : x.bankAccount.balance.subtract (Money.new amt moneyUSD) with
      | error er =>
          simp [hsub, Bind.bind, Except.bind, Except.map]
      | ok r =>
          simp [hsub, Bind.bind, Except.bind, pure, Except.pure, Except.map,
            erasePwAgg, erasePw, hbase, h1, h2, h3, h4, h6, h7, h8]

/-- Replay is insensitive to the password hash. -/
theorem replay_erase_congr :
    ∀ (l : List EsEvent) (x y : BankAccountAggregate),
      erasePwAgg x = erasePwAgg y →
      (replayList x l).map erasePwAgg = (replayList y l).map erasePwAgg := by
  intro l
  induction l with
  | nil =>
      intro x y h
      have hx : replayList x [] = .ok x := rfl
      have hy : replayList y [] = .ok y := rfl
      rw [hx, hy]
      simp [Except.map, h]
  | cons e es ih =>
      intro x y h
      cases hdes : deserializeEvent e with
      | error er =>
          rw [replayList_cons_err x e es er hdes,
            replayList_cons_err y e es er hdes]
      | ok d =>
          rw [replayList_cons_ok x e es d hdes,
            replayList_cons_ok y e es d hdes]
          have hr := raiseEvent_erase_congr x y d h
          cases hx : x.raiseEvent d with
          | error er =>
              cases hy : y.raiseEvent d with
              | error er2 =>
                  rw [hx, hy] at hr
                  simp only [Except.map] at hr
                  cases hr
                  simp
              | ok y1 =>
                  rw [hx, hy] at hr
                  simp [Except.map] at hr
          | ok x1 =>
              cases hy : y.raiseEvent d with
              | error er2 =>
                  rw [hx, hy] at hr
                  simp [Except.map] at hr
              | ok y1 =>
                  rw [hx, hy] at hr
                  simp only [Except.map, Except.ok.injEq] at hr
                  exact ih x1 y1 hr

/-- The read-model mapper is insensitive to the password hash. -/
theorem mapper_erase_congr (x y : BankAccountAggregate)
    (h : erasePwAgg x = erasePwAgg y) :
    BankAccountToMongoProjection x = BankAccountToMongoProjection y := by
  have hbase : x.base = y.base := by
    simpa [erasePwAgg] using congrArg BankAccountAggregate.base h
  have hflds : erasePw x.bankAccount = erasePw y.bankAccount := by
    simpa [erasePwAgg] using congrArg BankAccountAggregate.bankAccount h
  simp only [erasePw, BankAccount.mk.injEq, and_true] at hflds
  obtain ⟨h1, h2, h3, h4, h5, h6, h7, h8⟩ := hflds
  unfold BankAccountToMongoProjection
  rw [hbase, h1, h2, h3, h4, h5, h6]

/-- What a successful snapshot-by-version lookup guarantees. -/
theorem getSnapshotByVersion_spec (st : PgState) (id : String) (vv : Nat)
    (snap : SnapRow) (h : getSnapshotByVersion st id vv = some snap) :
    snap ∈ st.snapshots ∧ snap.aggregateID = id ∧ snap.version = vv := by
  unfold getSnapshotByVersion at h
  cases hl : st.snapshots.filter (fun r => r.aggregateID = id ∧ r.version = vv)
    with
  | nil => rw [hl] at h; cases h
  | cons s ss =>
      rw [hl] at h
      simp only [List.head?_cons, Option.some.injEq] at h
      have hmem : s ∈ st.snapshots.filter
          (fun r => r.aggregateID = id ∧ r.version = vv) := by
        rw [hl]
        exact List.mem_cons_self s ss
      have hmf := List.mem_filter.mp hmem
      rw [← h]
      refine ⟨hmf.1, ?_, ?_⟩
      · exact (by simpa using hmf.2 : s.aggregateID = id ∧ s.version = vv).1
      · exact (by simpa using hmf.2 : s.aggregateID = id ∧ s.version = vv).2

/-- `LoadByVersion` when the snapshot at `v / F * F` exists. -/
theorem loadByVersion_some (pg : PgState) (a0 : BankAccountAggregate)
    (v F : Nat) (snap : SnapRow)
    (hs : getSnapshotByVersion pg a0.base.id (v / F * F) = some snap) :
    LoadByVersion pg a0 v F
      = if snap.version < v then
          replayList (loadSnapshotIntoAggregate a0 snap.state)
            (getEventsRange pg
              (loadSnapshotIntoAggregate a0 snap.state).base.id
              (snap.version + 1) v)
        else .ok (loadSnapshotIntoAggregate a0 snap.state) := by
  unfold LoadByVersion
  rw [hs]

/-- `LoadByVersion` when there is no snapshot at `v / F * F`. -/
theorem loadByVersion_none (pg : PgState) (a0 : BankAccountAggregate)
    (v F : Nat)
    (hs : getSnapshotByVersion pg a0.base.id (v / F * F) = none) :
    LoadByVersion pg a0 v F
      = replayList a0 (getEventsUpTo pg a0.base.id v) := by
  unfold LoadByVersion
  rw [hs]

/-- The GetByVersion handler for a non-empty id. -/
theorem getByVersionHandle_some (pg : PgState) (F : Nat) (id : String)
    (v : Nat) (a0 : BankAccountAggregate)
    (h0 : NewBankAccountAggregate id = some a0) :
    getBankAccountByVersionHandle pg F id v
      = match LoadByVersion pg a0 v F with
        | .error e => .err e
        | .ok agg =>
            if agg.base.version = 0 then .err .bankAccountNotFound
            else if agg.base.version < v then .err .bankAccountNotFound
            else .ok (BankAccountToMongoProjection agg) := by
  unfold getBankAccountByVersionHandle
  rw [h0]

/-- Version arithmetic of a successful replay. -/
theorem replay_version (l : List EsEvent) (a b : BankAccountAggregate)
    (h : replayList a l = .ok b) :
    b.base.version = a.base.version + l.length := by
  rw [replay_base l a b h]

/-- The GetByVersion handler returns the mapped aggregate when the load
succeeds at a live version. -/
theorem getByVersionHandle_ok (pg : PgState) (F : Nat) (id : String)
    (v : Nat) (a0 agg : BankAccountAggregate)
    (h0 : NewBankAccountAggregate id = some a0)
    (hl : LoadByVersion pg a0 v F = .ok agg)
    (h1 : agg.base.version ≠ 0) (h2 : ¬agg.base.version < v) :
    getBankAccountByVersionHandle pg F id v
      = .ok (BankAccountToMongoProjection agg) := by
  rw [getByVersionHandle_some pg F id v a0 h0, hl]
  show (if agg.base.version = 0 then QueryRes.err GoErr.bankAccountNotFound
    else if agg.base.version < v then QueryRes.err GoErr.bankAccountNotFound
    else QueryRes.ok (BankAccountToMongoProjection agg))
    = QueryRes.ok (BankAccountToMongoProjection agg)
  rw [if_neg h1, if_neg h2]

/-- The GetByVersion handler fails NotFound for a version-0 or
below-requested load result. -/
theorem getByVersionHandle_notFound (pg : PgState) (F : Nat) (id : String)
    (v : Nat) (a0 agg : BankAccountAggregate)
    (h0 : NewBankAccountAggregate id = some a0)
    (hl : LoadByVersion pg a0 v F = .ok agg)
    (h : agg.base.version = 0 ∨ agg.base.version < v) :
    getBankAccountByVersionHandle pg F id v = .err .bankAccountNotFound := by
  rw [getByVersionHandle_some pg F id v a0 h0, hl]
  show (if agg.base.version = 0 then QueryRes.err GoErr.bankAccountNotFound
    else if agg.base.version < v then QueryRes.err GoErr.bankAccountNotFound
    else QueryRes.ok (BankAccountToMongoProjection agg))
    = QueryRes.err GoErr.bankAccountNotFound
  rcases h with h | h
  · rw [if_pos h]
  · by_cases h0v : agg.base.version = 0
    · rw [if_pos h0v]
    · rw [if_neg h0v, if_pos h]

/-- C5: `GetByVersion(id, v)` returns the projection of the state obtained by
replaying events `1..v` from scratch, for every valid `v` (1 ≤ v ≤ N), and
fails `NotFound` for `v > N` — whether or not `LoadByVersion` starts from a
consistent snapshot at `⌊v/F⌋·F`.  Hypotheses: F positive, a non-empty id, a
dense version-ordered history for the aggregate whose full replay succeeds,
and snapshot rows consistent with the history (state at their version,
modulo the `json:"-"`-dropped password hash, which the returned projection
never contains). -/
theorem c5_get_by_version_equals_replay :
    ∀ (pg : PgState) (id : String) (F v : Nat) (a0 : BankAccountAggregate)
      (rows : List EsEvent) (afull : BankAccountAggregate),
      0 < F →
      NewBankAccountAggregate id = some a0 →
      eventsFor pg id = rows →
      rows.map EsEvent.version = List.range' 1 rows.length →
      replayList a0 rows = .ok afull →
      (∀ s ∈ pg.snapshots, s.aggregateID = id →
        s.version ≤ rows.length ∧ s.state.version = s.version ∧
        ∃ asv, replayEventsOneTo a0 rows s.version = .ok asv ∧
          s.state.bankAccount = erasePw asv.bankAccount) →
      (1 ≤ v → v ≤ rows.length →
        ∃ aref, replayEventsOneTo a0 rows v = .ok aref ∧
          getBankAccountByVersionHandle pg F id v
            = .ok (BankAccountToMongoProjection aref)) ∧
      (rows.length < v →
        getBankAccountByVersionHandle pg F id v = .err .bankAccountNotFound) := by
  intro pg id F v a0 rows afull hF h0 hef hdense hfull hsnap
  have ha0base : a0.base
      = { id := id, type := BankAccountAggregateType, version := 0,
          changes := [] } := by
    unfold NewBankAccountAggregate at h0
    split at h0
    · cases h0
    · simp only [Option.some.injEq] at h0
      rw [← h0]
      rfl
  have ha0id : a0.base.id = id := by rw [ha0base]
  have ha0v : a0.base.version = 0 := by rw [ha0base]
  have hPW : rows.Pairwise (fun a b => a.version ≤ b.version) :=
    dense_pairwise rows 0 hdense
  have hupto : ∀ u, getEventsUpTo pg id u = rows.take u := by
    intro u
    unfold getEventsUpTo
    rw [hef, filter_le_dense rows 0 u hdense, Nat.sub_zero]
    exact sortByVersion_eq_self _
      (List.Pairwise.sublist (List.take_sublist u rows) hPW)
  have hrange : ∀ lo hi, getEventsRange pg id lo hi
      = (rows.take hi).drop (lo - 1) := by
    intro lo hi
    unfold getEventsRange
    rw [hef, filter_range_dense rows 0 lo hi hdense, Nat.sub_zero,
      Nat.sub_zero]
    exact sortByVersion_eq_self _
      (List.Pairwise.sublist
        ((List.drop_sublist _ _).trans (List.take_sublist _ _)) hPW)
  have hk_le : v / F * F ≤ v := Nat.div_mul_le_self v F
  cases hs : getSnapshotByVersion pg id (v / F * F) with
  | none =>
      have hs' : getSnapshotByVersion pg a0.base.id (v / F * F) = none := by
        rw [ha0id]
        exact hs
      have hLBV : LoadByVersion pg a0 v F = replayList a0 (rows.take v) := by
        rw [loadByVersion_none pg a0 v F hs', ha0id, hupto v]
      constructor
      · intro hv1 hvN
        obtain ⟨aref, href, -⟩ := replay_prefix_ok rows a0 afull hfull v
        have hvref : aref.base.version = v := by
          rw [replay_version _ _ _ href, ha0v, List.length_take,
            Nat.min_eq_left hvN]
          omega
        refine ⟨aref, href, ?_⟩
        exact getByVersionHandle_ok pg F id v a0 aref h0
          (by rw [hLBV]; exact href) (by omega) (by omega)
      · intro hNv
        have htake : rows.take v = rows := List.take_of_length_le (by omega)
        have hvfull : afull.base.version = rows.length := by
          rw [replay_version _ _ _ hfull, ha0v]
          omega
        exact getByVersionHandle_notFound pg F id v a0 afull h0
          (by rw [hLBV, htake]; exact hfull) (by omega)
  | some snap =>
      have hs' : getSnapshotByVersion pg a0.base.id (v / F * F)
          = some snap := by
        rw [ha0id]
        exact hs
      obtain ⟨hmem, hsid, hsver⟩ := getSnapshotByVersion_spec pg id _ snap hs
      obtain ⟨hsle, hstv, asv, hasv, hsbank⟩ := hsnap snap hmem hsid
      have hasv' : replayList a0 (rows.take snap.version) = .ok asv := hasv
      have hsv_le : snap.version ≤ v := by
        rw [hsver]
        exact hk_le
      have hasvver : asv.base.version = snap.version := by
        rw [replay_version _ _ _ hasv', ha0v, List.length_take,
          Nat.min_eq_left hsle]
        omega
      have hasvbase : asv.base
          = { a0.base with version := snap.version } := by
        have harith : a0.base.version + (rows.take snap.version).length
            = snap.version := by
          rw [ha0v, List.length_take, Nat.min_eq_left hsle]
          omega
        rw [replay_base _ _ _ hasv', harith]
      have ha' : loadSnapshotIntoAggregate a0 snap.state
          = erasePwAgg asv := by
        unfold loadSnapshotIntoAggregate erasePwAgg
        rw [hsbank, hstv, hasvbase]
      have heb : (erasePwAgg asv).base = asv.base := rfl
      have hid' : (erasePwAgg asv).base.id = id := by
        rw [heb, hasvbase]
        exact ha0id
      have hever : (erasePwAgg asv).base.version = snap.version := by
        rw [heb, hasvver]
      constructor
      · intro hv1 hvN
        by_cases hkv : snap.version < v
        · obtain ⟨aref, href, -⟩ := replay_prefix_ok rows a0 afull hfull v
          obtain ⟨apre, hpre, hsuf⟩ :=
            replay_prefix_ok (rows.take v) a0 aref href snap.version
          rw [List.take_take, Nat.min_eq_left (le_of_lt hkv)] at hpre
          rw [hasv'] at hpre
          have hape : asv = apre := by
            simpa using hpre
          rw [← hape] at hsuf
          have htrans := replay_erase_congr ((rows.take v).drop snap.version)
            (erasePwAgg asv) asv (erasePwAgg_idem asv)
          rw [hsuf] at htrans
          cases hw : replayList (erasePwAgg asv)
              ((rows.take v).drop snap.version) with
          | error er =>
              rw [hw] at htrans
              simp [Except.map] at htrans
          | ok w =>
              rw [hw] at htrans
              simp only [Except.map, Except.ok.injEq] at htrans
              have hwver : w.base.version = v := by
                rw [replay_version _ _ _ hw, hever, List.length_drop,
                  List.length_take, Nat.min_eq_left hvN]
                omega
              have hl : LoadByVersion pg a0 v F = .ok w := by
                rw [loadByVersion_some pg a0 v F snap hs', if_pos hkv, ha',
                  hid', hrange (snap.version + 1) v, Nat.add_sub_cancel]
                exact hw
              refine ⟨aref, href, ?_⟩
              rw [getByVersionHandle_ok pg F id v a0 w h0 hl (by omega)
                (by omega), mapper_erase_congr w aref htrans]
        · have hkv' : snap.version = v := by omega
          have hl : LoadByVersion pg a0 v F = .ok (erasePwAgg asv) := by
            rw [loadByVersion_some pg a0 v F snap hs', if_neg hkv, ha']
          have hever' : (erasePwAgg asv).base.version = v := by
            rw [hever, hkv']
          refine ⟨asv, hkv' ▸ hasv, ?_⟩
          rw [getByVersionHandle_ok pg F id v a0 (erasePwAgg asv) h0 hl
            (by omega) (by omega),
            mapper_erase_congr (erasePwAgg asv) asv (erasePwAgg_idem asv)]
      · intro hNv
        have hkv : snap.version < v := by omega
        obtain ⟨apre, hpre, hsuf⟩ :=
          replay_prefix_ok rows a0 afull hfull snap.version
        rw [hasv'] at hpre
        have hape : asv = apre := by
          simpa using hpre
        rw [← hape] at hsuf
        have htake : rows.take v = rows := List.take_of_length_le (by omega)
        have htrans := replay_erase_congr (rows.drop snap.version)
          (erasePwAgg asv) asv (erasePwAgg_idem asv)
        rw [hsuf] at htrans
        cases hw : replayList (erasePwAgg asv) (rows.drop snap.version) with
        | error er =>
            rw [hw] at htrans
            simp [Except.map] at htrans
        | ok w =>
            rw [hw] at htrans
            simp only [Except.map, Except.ok.injEq] at htrans
            have hwver : w.base.version = rows.length := by
              rw [replay_version _ _ _ hw, hever, List.length_drop]
              omega
            have hl : LoadByVersion pg a0 v F = .ok w := by
              rw [loadByVersion_some pg a0 v F snap hs', if_pos hkv, ha',
                hid', hrange (snap.version + 1) v, Nat.add_sub_cancel, htake]
              exact hw
            exact getByVersionHandle_notFound pg F id v a0 w h0 hl (by omega)

/-- C5 witness: on the one-event store, version 1 returns the projection of
the replayed aggregate and version 2 is NotFound. -/
theorem c5_get_by_version_witness :
    getBankAccountByVersionHandle pgA 5 "A" 1
      = .ok (BankAccountToMongoProjection aggALoaded) ∧
    getBankAccountByVersionHandle pgA 5 "A" 2 = .err .bankAccountNotFound :=
  ⟨by decide,
   (c5_get_by_version_equals_replay pgA "A" 5 2 aggA [rowCreatedA] aggALoaded
      (by decide) (by decide) (by decide) (by decide) (by decide)
      (by intro s hs; cases hs)).2 (by decide)⟩
